import Mathlib

/-!
# psafe: key derivation, key unwrapping, record decoding and the final report

A shallow embedding of `src/psafe.c`.  Bytes are natural numbers, byte arrays
are lists, pointers into a buffer are offsets.  The cryptographic library
(libgcrypt) is external to the program: its digest, keyed digest and block
cipher are fields of a provider record, together with the error code each
fallible library call reports.
-/

namespace Psafe

/-! ## Data model -/

/-- The library's code for success. -/
def GPG_ERR_NO_ERROR : Nat := 0

/-- Modelled from the spec: the cipher block size, 16 bytes, which is the value of the
constant `TWOFISH_SIZE` defined in a header that is not part of the sources. -/
def TWOFISH_SIZE : Nat := 16

/-- Modelled from the spec: the size of the length and type bytes in front of a field's
payload, 5 bytes, which is `sizeof(struct field)` for the structure declared in a header
that is not part of the sources (a 32-bit length and a one-byte type, packed). -/
def FIELD_HDR_SIZE : Nat := 5

/-- Number of values of `size_t` (LP64). -/
def SIZE_MOD : Nat := 2 ^ 64

/-- Number of values of `uint32_t` and of `unsigned int`. -/
def U32_MOD : Nat := 2 ^ 32

/-- Modelled from the spec: the fixed header that follows the four-byte tag of the
file (`struct psafe3_header`, declared in a header that is not part of the sources):
salt, iteration count, stored verifier, four wrapped key blocks, initialisation
vector. -/
structure psafe3_header where
  salt : List Nat
  iter : Nat
  h_pprime : List Nat
  b : Fin 4 → List Nat
  iv : List Nat

/-- Modelled from the spec: the secrets of a run (`struct safe_sec`, declared in a
header that is not part of the sources): stretched key, content-encryption key and
content-authentication key. -/
structure safe_sec where
  pprime : List Nat
  rand_k : List Nat
  rand_l : List Nat
deriving DecidableEq, Repr

/-- The two states of the record decoder (`enum { HDR, DB }` in `main`). -/
inductive ParseState
  | HDR
  | DB
deriving DecidableEq, Repr

/-- The payload interpretation a print function selects for a field. -/
inductive Interp
  | text
  | uuid
  | time
deriving DecidableEq, Repr

/-- One line of decoder output: where the field starts, the table that classified it,
its length and type, the interpretation the table selected (none when the type is not
in the table), and the number of bytes the print function read at the field's value
(absent when it read past the end of the plaintext buffer). -/
structure field_line where
  off : Nat
  table : ParseState
  len : Nat
  type : Nat
  interp : Option Interp
  print_read : Option Nat
deriving DecidableEq, Repr

/-- What a complete run prints: the decoded fields, the stretched key, the stored
verifier, the computed HMAC and the stored HMAC. -/
structure Report where
  fields : List field_line
  key : List Nat
  h_key : List Nat
  hmac_computed : List Nat
  hmac_stored : List Nat
deriving DecidableEq, Repr

/-- How a run of the process ends. -/
inductive Outcome
  | exit (status : Nat) (report : Option Report)
  | abort (line : Nat)
  | fatal (gerr : Nat)
  | fault (line : Nat)
  | hang
deriving DecidableEq, Repr

/-- Exit status of a run that ended through `exit`. -/
def Outcome.status : Outcome → Option Nat
  | .exit s _ => some s
  | _ => none

/-- Modelled from the spec: `gcrypt_fatal` (declared in a header that is not part of the
sources) ends the run with a fatal primitive error and never returns. -/
def gcrypt_fatal (gerr : Nat) : Outcome := Outcome.fatal gerr

/-! ## The primitive provider -/

/-- The library as the program sees it: the three primitives and the error code of
each fallible call, one per call site kind, and the code `gcry_cipher_decrypt` reports
on a handle whose key was never set (`GPG_ERR_MISSING_KEY` in current releases of the
library, no error in old ones). -/
structure Gcrypt where
  sha256 : List Nat → List Nat
  hmac_sha256 : List Nat → List Nat → List Nat
  twofish_dec : List Nat → List Nat → List Nat
  md_open_err : Nat
  ecb_open_err : Nat
  ecb_setkey_err : Nat
  ecb_decrypt_err : Nat
  cbc_open_err : Nat
  cbc_setkey_err : Nat
  cbc_setiv_err : Nat
  cbc_decrypt_err : Nat
  hmac_open_err : Nat
  hmac_setkey_err : Nat
  unkeyed_decrypt_err : Nat

/-- A message digest handle: the key (for HMAC) and the bytes written so far. -/
structure md_hd where
  hmac : Bool
  key : List Nat
  buf : List Nat
deriving DecidableEq, Repr

/-- Block cipher modes used by the program. -/
inductive cipher_mode
  | ECB
  | CBC
deriving DecidableEq, Repr

/-- A cipher handle: mode, whether a key was set, key and chaining value. -/
structure cipher_hd where
  mode : cipher_mode
  keyed : Bool
  key : List Nat
  iv : List Nat
deriving DecidableEq, Repr

/-- The chaining value of a handle on which none was set: one block of zero bytes. -/
def ZERO_IV : List Nat := List.replicate 16 0

/-- A fresh digest handle. -/
def gcry_md_new (hmac : Bool) : md_hd := { hmac := hmac, key := [], buf := [] }

/-- Feed bytes to a digest handle. -/
def gcry_md_write (hd : md_hd) (bytes : List Nat) : md_hd :=
  { hd with buf := hd.buf ++ bytes }

/-- Forget the bytes written so far, keeping the key. -/
def gcry_md_reset (hd : md_hd) : md_hd := { hd with buf := [] }

/-- Set the key of a keyed digest handle. -/
def gcry_md_setkey (hd : md_hd) (key : List Nat) : md_hd := { hd with key := key }

/-- The digest of the bytes written so far. -/
def gcry_md_read (G : Gcrypt) (hd : md_hd) : List Nat :=
  if hd.hmac then G.hmac_sha256 hd.key hd.buf else G.sha256 hd.buf

/-- Bytewise exclusive or. -/
def xor_bytes (a b : List Nat) : List Nat := List.zipWith Nat.xor a b

/-- Decrypt one block with a handle.  The result is the error code, the handle after the
call and the content of the output buffer, which is left as it was on error.  A handle
without a key is refused when the library checks for one. -/
def gcry_cipher_decrypt (G : Gcrypt) (hd : cipher_hd) (out inp : List Nat) :
    Nat × cipher_hd × List Nat :=
  if hd.keyed = false ∧ G.unkeyed_decrypt_err ≠ GPG_ERR_NO_ERROR then
    (G.unkeyed_decrypt_err, hd, out)
  else
  match hd.mode with
  | .ECB =>
    if G.ecb_decrypt_err ≠ GPG_ERR_NO_ERROR then (G.ecb_decrypt_err, hd, out)
    else (GPG_ERR_NO_ERROR, hd, G.twofish_dec hd.key inp)
  | .CBC =>
    if G.cbc_decrypt_err ≠ GPG_ERR_NO_ERROR then (G.cbc_decrypt_err, hd, out)
    else (GPG_ERR_NO_ERROR, { hd with iv := inp }, xor_bytes (G.twofish_dec hd.key inp) hd.iv)

/-- Reset a cipher handle: the chaining value is cleared, the key stays. -/
def gcry_cipher_reset (hd : cipher_hd) : cipher_hd := { hd with iv := ZERO_IV }

/-! ## Key derivation and unwrapping -/

/-- The loop `while (iter-- > 0)` of `stretch_key`: reset, write the 32 bytes of `skey`,
read the digest back into `skey`. -/
def stretch_loop (G : Gcrypt) : Nat → md_hd → List Nat → md_hd × List Nat
  | 0, sha256, skey => (sha256, skey)
  | iter + 1, sha256, skey =>
    let sha256 := gcry_md_reset sha256
    let sha256 := gcry_md_write sha256 (skey.take 32)
    stretch_loop G iter sha256 ((gcry_md_read G sha256).take 32)

/-- The function `stretch_key`: the value left in `skey`. -/
def stretch_key (G : Gcrypt) (pass : List Nat) (passlen : Nat) (pro : psafe3_header) :
    Except Outcome (List Nat) :=
  if G.md_open_err ≠ GPG_ERR_NO_ERROR then .error (gcrypt_fatal G.md_open_err)
  else
    let sha256 := gcry_md_new false
    let sha256 := gcry_md_write sha256 (pass.take passlen)
    let sha256 := gcry_md_write sha256 (pro.salt.take 32)
    let skey := (gcry_md_read G sha256).take 32
    let iter := pro.iter % U32_MOD
    .ok (stretch_loop G iter sha256 skey).2

/-- The function `sha256_block32`: the value left in `out`. -/
def sha256_block32 (G : Gcrypt) (inp : List Nat) : Except Outcome (List Nat) :=
  if G.md_open_err ≠ GPG_ERR_NO_ERROR then .error (gcrypt_fatal G.md_open_err)
  else
    let hd := gcry_md_new false
    let hd := gcry_md_write hd (inp.take 32)
    .ok ((gcry_md_read G hd).take 32)

/-- The function `extract_random_key`: the value left in `randkey`, whose 32 bytes on
entry are the last argument. -/
def extract_random_key (G : Gcrypt) (stretchkey fst snd randkey : List Nat) :
    Except Outcome (List Nat) :=
  if G.ecb_open_err ≠ GPG_ERR_NO_ERROR then .error (gcrypt_fatal G.ecb_open_err)
  else if G.ecb_setkey_err ≠ GPG_ERR_NO_ERROR then .error (gcrypt_fatal G.ecb_setkey_err)
  else
    let hd : cipher_hd :=
      { mode := .ECB, keyed := true, key := stretchkey.take 32, iv := ZERO_IV }
    let r1 := gcry_cipher_decrypt G hd (randkey.take 16) (fst.take 16)
    let hd := gcry_cipher_reset r1.2.1
    let r2 := gcry_cipher_decrypt G hd ((randkey.drop 16).take 16) (snd.take 16)
    .ok (r1.2.2 ++ r2.2.2)

/-- The function `stretch_and_check_pass`: the returned integer and the secrets after
the call. -/
def stretch_and_check_pass (G : Gcrypt) (pass : List Nat) (passlen : Nat)
    (pro : psafe3_header) (sec : safe_sec) : Except Outcome (Int × safe_sec) :=
  match stretch_key G pass passlen pro with
  | .error o => .error o
  | .ok pprime =>
    let sec := { sec with pprime := pprime }
    match sha256_block32 G sec.pprime with
    | .error o => .error o
    | .ok hkey =>
      if pro.h_pprime.take 32 ≠ hkey.take 32 then .ok (-1, sec)
      else
        match extract_random_key G sec.pprime (pro.b 0) (pro.b 1) sec.rand_k with
        | .error o => .error o
        | .ok rand_k =>
          let sec := { sec with rand_k := rand_k }
          match extract_random_key G sec.pprime (pro.b 2) (pro.b 3) sec.rand_l with
          | .error o => .error o
          | .ok rand_l => .ok (0, { sec with rand_l := rand_l })

/-! ## The decryption context -/

/-- The handles of a run and the last error code, the members of `struct crypto_ctx`
that `psafe.c` uses; a handle that was never opened is absent. -/
structure crypto_ctx where
  cipher : Option cipher_hd
  hmac : Option md_hd
  gerr : Nat
deriving DecidableEq, Repr

/-- The function `init_decrypt_ctx`, statement by statement.  The local `gerr` is
assigned by the first, fourth and fifth call; the second and third call assign
`ctx->gerr` and are followed by a test of the local `gerr`. -/
def init_decrypt_ctx (G : Gcrypt) (ctx : crypto_ctx) (pro : psafe3_header) (sec : safe_sec) :
    Int × crypto_ctx :=
  -- gerr = gcry_cipher_open(&ctx->cipher, ...)
  let gerr := G.cbc_open_err
  if gerr ≠ GPG_ERR_NO_ERROR then (-1, { ctx with gerr := gerr })
  else
    let cipher : cipher_hd := { mode := .CBC, keyed := false, key := [], iv := ZERO_IV }
    -- ctx->gerr = gcry_cipher_setkey(ctx->cipher, sec->rand_k, 32)
    let cipher :=
      if G.cbc_setkey_err = GPG_ERR_NO_ERROR then
        { cipher with keyed := true, key := sec.rand_k.take 32 }
      else cipher
    let ctx := { ctx with cipher := some cipher, gerr := G.cbc_setkey_err }
    if gerr ≠ GPG_ERR_NO_ERROR then (-1, { ctx with gerr := gerr })
    else
      -- ctx->gerr = gcry_cipher_setiv(ctx->cipher, pro->iv, 16)
      let cipher :=
        if G.cbc_setiv_err = GPG_ERR_NO_ERROR then { cipher with iv := pro.iv.take 16 }
        else cipher
      let ctx := { ctx with cipher := some cipher, gerr := G.cbc_setiv_err }
      if gerr ≠ GPG_ERR_NO_ERROR then (-1, { ctx with gerr := gerr })
      else
        -- gerr = gcry_md_open(&ctx->hmac, ...)
        let gerr := G.hmac_open_err
        if gerr ≠ GPG_ERR_NO_ERROR then (-1, { ctx with cipher := none, gerr := gerr })
        else
          let hmac := gcry_md_new true
          let ctx := { ctx with hmac := some hmac }
          -- gerr = gcry_md_setkey(ctx->hmac, sec->rand_l, 32)
          let gerr := G.hmac_setkey_err
          if gerr ≠ GPG_ERR_NO_ERROR then (-1, { ctx with cipher := none, gerr := gerr })
          else (0, { ctx with hmac := some (gcry_md_setkey hmac (sec.rand_l.take 32)) })

/-! ## The record decoder -/

/-- Read `n` bytes at offset `off` of a buffer; nothing when the range leaves the buffer. -/
def peek (mem : List Nat) (off n : Nat) : Option (List Nat) :=
  if off + n ≤ mem.length then some ((mem.drop off).take n) else none

/-- Overwrite the bytes at offset `off` of a buffer. -/
def poke (mem : List Nat) (off : Nat) (bytes : List Nat) : List Nat :=
  mem.take off ++ bytes ++ mem.drop (off + bytes.length)

/-- Modelled from the spec: the member `len` of a `struct field` laid over the bytes at
the cursor, a 32-bit little-endian unsigned integer. -/
def field_len (hdr : List Nat) : Nat :=
  hdr.getD 0 0 + 256 * hdr.getD 1 0 + 65536 * hdr.getD 2 0 + 16777216 * hdr.getD 3 0

/-- Modelled from the spec: the member `type` of a `struct field` laid over the bytes at
the cursor, the byte that follows the length. -/
def field_type (hdr : List Nat) : Nat := hdr.getD 4 0

/-- The function `hd_print`: the printer its switch selects for a type. -/
def hd_print (type : Nat) : Option Interp :=
  if (0x2 ≤ type ∧ type ≤ 0x3) ∨ (0x5 ≤ type ∧ type ≤ 0xb) ∨ (0xf ≤ type ∧ type ≤ 0x11) then
    some Interp.text
  else if type = 0x1 then some Interp.uuid
  else if type = 0x4 then some Interp.time
  else none

/-- The function `db_print`: the printer its switch selects for a type. -/
def db_print (type : Nat) : Option Interp :=
  if (0x2 ≤ type ∧ type ≤ 0x6) ∨ (0xd ≤ type ∧ type ≤ 0x10) ∨ type = 0x14 ∨ type = 0x16 then
    some Interp.text
  else if (0x7 ≤ type ∧ type ≤ 0xa) ∨ type = 0xc then some Interp.time
  else if type = 0x1 then some Interp.uuid
  else none

/-- Modelled from the spec: the number of bytes `load_le32` (defined in a header that is
not part of the sources) reads for `print_time`, the 4 bytes of a little-endian
timestamp. -/
def LOAD_LE32_SIZE : Nat := 4

/-- The bytes the print function called by `hd_print` or `db_print` reads at the value of
a field, `val` being the offset of the value in `safe`: `print_uuid` reads 16 bytes
through its five calls of `printhex` and `print_time` the bytes of `load_le32`,
whatever the length of the field; `pws` reads as many bytes as the text conversion
`mbsrtowcs` examines when it is given the bytes from `val` on and the length as its
limit; a type outside the table prints nothing.  The number of bytes is absent when
the read leaves `safe`. -/
def print_reads (mbsrtowcs : List Nat → Nat → Option Nat) (safe : List Nat) (val len : Nat) :
    Option Interp → Option Nat
  | none => some 0
  | some Interp.uuid => if val + (4 + 2 + 2 + 2 + 6) ≤ safe.length then some 16 else none
  | some Interp.time => if val + LOAD_LE32_SIZE ≤ safe.length then some LOAD_LE32_SIZE else none
  | some Interp.text =>
    match mbsrtowcs (safe.drop val) len with
    | some n => if val + n ≤ safe.length then some n else none
    | none => none

/-- The cursor increment `((fld->len + 5 + 15) / TWOFISH_SIZE) * TWOFISH_SIZE`, the sum
being computed in `unsigned int`. -/
def field_advance (len : Nat) : Nat :=
  ((len + 5 + 15) % U32_MOD) / TWOFISH_SIZE * TWOFISH_SIZE

/-- The variables of the decoding loop: cursor (as an offset from `safe`), parse state,
HMAC handle and the lines printed so far. -/
structure decode_st where
  safep : Nat
  state : ParseState
  hmac : md_hd
  printed : List field_line
deriving DecidableEq, Repr

/-- How an execution of the decoding loop stops. -/
inductive loop_exit
  | done
  | fault
  | hang
  | out_of_fuel
deriving DecidableEq, Repr

/-- The loop `while (safep < safe + safe_size)` of `main`, with a bound on the number of
iterations.  The first argument is the text conversion of the C library in the locale
of the run.  A read outside `safe` by the access to length and type or by
`gcry_md_write` is a fault, the loop having no bytes to go on with; a read outside
`safe` by a print function, which only changes the text printed, is recorded in the
line as an absent `print_read`; an iteration that leaves the cursor where it was repeats
for ever and is reported as a hang. -/
def field_loop (mbsrtowcs : List Nat → Nat → Option Nat) (safe : List Nat) (safe_size : Nat) :
    Nat → decode_st → loop_exit × decode_st
  | 0, st => (loop_exit.out_of_fuel, st)
  | fuel + 1, st =>
    if st.safep < safe_size then
      match peek safe st.safep FIELD_HDR_SIZE with
      | none => (loop_exit.fault, st)
      | some fld =>
        let len := field_len fld
        let type := field_type fld
        let interp := if st.state = ParseState.DB then db_print type else hd_print type
        let line : field_line :=
          { off := st.safep, table := st.state, len := len, type := type, interp := interp,
            print_read := print_reads mbsrtowcs safe (st.safep + FIELD_HDR_SIZE) len interp }
        let state := if type = 0xff then ParseState.DB else st.state
        let st1 : decode_st := { st with state := state, printed := st.printed ++ [line] }
        if len ≠ 0 then
          match peek safe (st.safep + FIELD_HDR_SIZE) len with
          | none => (loop_exit.fault, st1)
          | some val =>
            let st2 : decode_st :=
              { st1 with hmac := gcry_md_write st1.hmac val, safep := st.safep + field_advance len }
            if field_advance len = 0 then (loop_exit.hang, st2)
            else field_loop mbsrtowcs safe safe_size fuel st2
        else
          let st2 : decode_st := { st1 with safep := st.safep + field_advance len }
          if field_advance len = 0 then (loop_exit.hang, st2)
          else field_loop mbsrtowcs safe safe_size fuel st2
    else (loop_exit.done, st)

/-- The state in which `main` enters the decoding loop: cursor at the beginning of
`safe`, state `HDR`. -/
def decode_init (hmac : md_hd) : decode_st :=
  { safep := 0, state := ParseState.HDR, hmac := hmac, printed := [] }

/-- The decoding loop of `main` on a plaintext buffer that fills its allocation, with the
iteration bound `main` is given here: the number of blocks plus one, which no execution
over a whole number of blocks exhausts. -/
def decode (mbsrtowcs : List Nat → Nat → Option Nat) (hmac : md_hd) (safe : List Nat) :
    loop_exit × decode_st :=
  field_loop mbsrtowcs safe safe.length (safe.length / TWOFISH_SIZE + 1) (decode_init hmac)

/-! ## The main program -/

/-- What the run gets from outside the program and the library: the size of the header
structure, the header reader, the two secure allocations, the answers of
`safe_io->drained`, and the text conversion of the C library in the locale of the run:
given the bytes from the source pointer on and the limit on the number of characters,
the number of source bytes it examines, absent when it needs a byte after the last
one given. -/
structure Env where
  gcrypt : Gcrypt
  sizeof_hdr : Nat
  parse_header : List Nat → Option psafe3_header
  malloc_sec : Option safe_sec
  malloc_safe : Nat → Option (List Nat)
  drained : Nat → Bool
  mbsrtowcs : List Nat → Nat → Option Nat

/-- Modelled from the spec: `pws3_read_header` (not part of the sources) reads the
fixed-size header that follows the four-byte tag at the start of the file and fails on
a file too short to hold it; how the bytes are checked and split is left to the
environment. -/
def pws3_read_header (E : Env) (mem : List Nat) : Option psafe3_header :=
  if 4 + E.sizeof_hdr ≤ mem.length then E.parse_header (mem.take (4 + E.sizeof_hdr)) else none

/-- The bytes of the string `PWS3-EOFPWS3-EOF`. -/
def PWS3_EOF : List Nat := [80, 87, 83, 51, 45, 69, 79, 70, 80, 87, 83, 51, 45, 69, 79, 70]

/-- The loop `while (bcnt-- && !safe_io->drained(safe_io))` of `main`: one block is read
from the file at `encp`, decrypted and stored in `safe` at `safep`. -/
def decrypt_loop (G : Gcrypt) (drained : Nat → Bool) (mem : List Nat) :
    Nat → Nat → cipher_hd → Nat → Nat → List Nat → Except Outcome (List Nat)
  | 0, _, _, _, _, safe => .ok safe
  | bcnt + 1, k, cipher, encp, safep, safe =>
    if drained k then .ok safe
    else
      match peek mem encp TWOFISH_SIZE, peek safe safep TWOFISH_SIZE with
      | some inp, some out =>
        let r := gcry_cipher_decrypt G cipher out inp
        if r.1 ≠ GPG_ERR_NO_ERROR then .error (gcrypt_fatal r.1)
        else
          decrypt_loop G drained mem bcnt (k + 1) r.2.1 (encp + TWOFISH_SIZE)
            (safep + TWOFISH_SIZE) (poke safe safep r.2.2)
      | _, _ => .error (Outcome.fault 303)

/-- The value of `safe_size = sz - (4 + sizeof(hdr) + 48)` in `size_t`. -/
def body_size (sz sizeof_hdr : Nat) : Nat :=
  (sz % SIZE_MOD + SIZE_MOD - (4 + sizeof_hdr + 48) % SIZE_MOD) % SIZE_MOD

/-- The end of `main`, from the assertion on the end-of-file marker to `exit(0)`. -/
def main_report (G : Gcrypt) (mem : List Nat) (hdr : psafe3_header) (sec : safe_sec)
    (st : decode_st) : Outcome :=
  let sz := mem.length
  match peek mem ((sz % SIZE_MOD + SIZE_MOD - 48) % SIZE_MOD) TWOFISH_SIZE with
  | none => Outcome.fault 331
  | some marker =>
    if marker ≠ PWS3_EOF then Outcome.abort 331
    else
      let hmac := (gcry_md_read G st.hmac).take 32
      match peek mem ((sz % SIZE_MOD + SIZE_MOD - 32) % SIZE_MOD) 32 with
      | none => Outcome.fault 351
      | some stored =>
        Outcome.exit 0 (some
          { fields := st.printed, key := sec.pprime, h_key := hdr.h_pprime,
            hmac_computed := hmac, hmac_stored := stored })

/-- The part of `main` from the decryption loop on, entered once the context is set up. -/
def main_body (E : Env) (mem : List Nat) (hdr : psafe3_header) (sec : safe_sec)
    (safe_size : Nat) (safe : List Nat) (ctx : crypto_ctx) : Outcome :=
  let bcnt := safe_size / TWOFISH_SIZE
  if ¬ (bcnt > 0) then Outcome.abort 297
  else
    match ctx.cipher, ctx.hmac with
    | some cipher, some hmac =>
      match decrypt_loop E.gcrypt E.drained mem bcnt 0 cipher (4 + E.sizeof_hdr) 0 safe with
      | .error o => o
      | .ok safe =>
        let r := field_loop E.mbsrtowcs safe safe_size (safe_size / TWOFISH_SIZE + 1)
          (decode_init hmac)
        match r.1 with
        | loop_exit.done => main_report E.gcrypt mem hdr sec r.2
        | loop_exit.fault => Outcome.fault 327
        | loop_exit.hang => Outcome.hang
        | loop_exit.out_of_fuel => Outcome.hang
    | _, _ => Outcome.fault 303

/-- The function `main`.  The arguments are the argument vector (program name, file
name, passphrase) and the content of the file when mapping it succeeds. -/
def main (E : Env) (argv : List (List Nat)) (file : Option (List Nat)) : Outcome :=
  if argv.length ≠ 3 then Outcome.exit 1 none
  else
    match file with
    | none => Outcome.exit 1 none
    | some mem =>
      let sz := mem.length
      match pws3_read_header E mem with
      | none => Outcome.exit 1 none
      | some hdr =>
        match E.malloc_sec with
        | none => Outcome.fault 275
        | some sec =>
          let pass := argv.getD 2 []
          match stretch_and_check_pass E.gcrypt pass pass.length hdr sec with
          | .error o => o
          | .ok (ret, sec) =>
            if ret ≠ 0 then Outcome.exit 1 none
            else
              let safe_size := body_size sz E.sizeof_hdr
              if ¬ (safe_size > 0) then Outcome.abort 285
              else if ¬ (safe_size % TWOFISH_SIZE = 0) then Outcome.abort 286
              else
                match E.malloc_safe safe_size with
                | none => Outcome.abort 288
                | some safe =>
                  let r := init_decrypt_ctx E.gcrypt { cipher := none, hmac := none, gerr := 0 }
                    hdr sec
                  if r.1 < 0 then gcrypt_fatal r.2.gerr
                  else main_body E mem hdr sec safe_size safe r.2

/-! ## A small provider and container for concrete runs -/

/-- A stand-in digest: 32 copies of a rolling checksum. -/
def toy_sha256 (m : List Nat) : List Nat :=
  List.replicate 32 (m.foldl (fun a x => (a * 31 + x + 3) % 251) 7)

/-- A stand-in block cipher, its own inverse: exclusive or with the first key byte. -/
def toy_twofish (key blk : List Nat) : List Nat := blk.map (fun x => Nat.xor x (key.headD 0))

/-- A provider built from the stand-ins in which every call succeeds. -/
def toy_gcrypt : Gcrypt :=
  { sha256 := toy_sha256
    hmac_sha256 := fun key m => toy_sha256 (key ++ m)
    twofish_dec := toy_twofish
    md_open_err := 0, ecb_open_err := 0, ecb_setkey_err := 0, ecb_decrypt_err := 0,
    cbc_open_err := 0, cbc_setkey_err := 0, cbc_setiv_err := 0, cbc_decrypt_err := 0,
    hmac_open_err := 0, hmac_setkey_err := 0, unkeyed_decrypt_err := 181 }

/-- Split the first 152 bytes of a file into the members of the header. -/
def toy_parse_header (m : List Nat) : Option psafe3_header :=
  some
    { salt := (m.drop 4).take 32
      iter := field_len ((m.drop 36).take 4)
      h_pprime := (m.drop 40).take 32
      b := fun i => (m.drop (72 + 16 * i.val)).take 16
      iv := (m.drop 136).take 16 }

/-- Length of the UTF-8 sequence a lead byte announces, 0 for a byte that starts none. -/
def utf8_seq_len (b : Nat) : Nat :=
  if b < 0x80 then 1
  else if 0xc2 ≤ b ∧ b ≤ 0xdf then 2
  else if 0xe0 ≤ b ∧ b ≤ 0xef then 3
  else if 0xf0 ≤ b ∧ b ≤ 0xf4 then 4
  else 0

/-- A stand-in for the text conversion in a UTF-8 locale: the number of source bytes
examined when at most the given number of characters is converted.  The conversion
stops after a zero byte and at a byte that starts no sequence, and needs a byte after
the last one given when the characters wanted are not all there. -/
def toy_mbsrtowcs : List Nat → Nat → Option Nat
  | _, 0 => some 0
  | [], _ + 1 => none
  | b :: rest, n + 1 =>
    if b = 0 then some 1
    else if utf8_seq_len b = 0 then some 1
    else if rest.length < utf8_seq_len b - 1 then none
    else
      (toy_mbsrtowcs (rest.drop (utf8_seq_len b - 1)) n).map (fun k => k + utf8_seq_len b)

/-- An environment in which allocations succeed with zeroed blocks, the file is never
reported drained and the locale is a UTF-8 one. -/
def toy_env : Env :=
  { gcrypt := toy_gcrypt
    sizeof_hdr := 148
    parse_header := toy_parse_header
    malloc_sec := some { pprime := [], rand_k := [], rand_l := [] }
    malloc_safe := fun n => some (List.replicate n 0)
    drained := fun _ => false
    mbsrtowcs := toy_mbsrtowcs }

/-- The first 152 bytes of the toy container: tag, salt, iteration count 3, verifier,
four wrapped key blocks, initialisation vector. -/
def toy_head : List Nat :=
  [80, 87, 83, 51] ++ List.range 32 ++ [3, 0, 0, 0] ++ List.replicate 32 102 ++ List.range 64
    ++ [200, 201, 202, 203, 204, 205, 206, 207, 208, 209, 210, 211, 212, 213, 214, 215]

/-- The encrypted body of the toy container: an end-of-header field and a text field
holding the five bytes of hello. -/
def toy_body : List Nat :=
  [73, 72, 75, 74, 178, 76, 79, 78, 81, 80, 83, 82, 85, 84, 87, 86,
   205, 201, 202, 203, 48, 165, 171, 163, 188, 190, 219, 218, 221, 220, 223, 222]

/-- The toy container with a given authentication tag. -/
def toy_file (tag : List Nat) : List Nat := toy_head ++ toy_body ++ PWS3_EOF ++ tag

/-- Argument vector of the toy run: program name, file name, passphrase. -/
def toy_argv : List (List Nat) := [[112], [102], [112, 119]]

/-! ## Definitions used to state the properties -/

/-- The digest as the program reads it: the first 32 bytes the provider returns. -/
def digest32 (G : Gcrypt) (m : List Nat) : List Nat := (G.sha256 m).take 32

/-- The toy provider with a failing cipher set-key step (error code 50). -/
def setkey_failing_gcrypt : Gcrypt := { toy_gcrypt with cbc_setkey_err := 50 }

/-- The same provider for a library that does not check whether a key was set. -/
def setkey_failing_old_gcrypt : Gcrypt :=
  { toy_gcrypt with cbc_setkey_err := 50, unkeyed_decrypt_err := 0 }

/-- A file of 184 bytes: the tag and header of the toy container followed by 32 bytes. -/
def short_file : List Nat := toy_head ++ List.replicate 32 0

/-- The header of the toy container. -/
def toy_header : psafe3_header :=
  { salt := List.range 32, iter := 3, h_pprime := List.replicate 32 102,
    b := fun i => (List.range 64).drop (16 * i.val) |>.take 16,
    iv := [200, 201, 202, 203, 204, 205, 206, 207, 208, 209, 210, 211, 212, 213, 214, 215] }

/-- The container format in the words of the specification, first part: a stored field
has a type, a payload and the padding bytes that follow the payload. -/
structure stored_field where
  type : Nat
  val : List Nat
  pad : List Nat
deriving DecidableEq, Repr

/-- Little-endian bytes of a 32-bit length. -/
def store_le32 (n : Nat) : List Nat :=
  [n % 256, n / 256 % 256, n / 65536 % 256, n / 16777216 % 256]

/-- The container format in the words of the specification, second part: a field is
stored as its little-endian length, its one-byte type, its payload and its padding. -/
def encode_field (f : stored_field) : List Nat :=
  store_le32 f.val.length ++ [f.type] ++ f.val ++ f.pad

/-- The container format in the words of the specification, third part: a stored field
is block-padded when it occupies ceil((L + 5) / 16) * 16 bytes, L being the length of
its payload; L is at most 2^32 - 21. -/
def block_padded (f : stored_field) : Prop :=
  f.val.length + 20 < U32_MOD
    ∧ FIELD_HDR_SIZE + f.val.length + f.pad.length
        = (f.val.length + FIELD_HDR_SIZE + (TWOFISH_SIZE - 1)) / TWOFISH_SIZE * TWOFISH_SIZE

/-- The container format in the words of the specification, fourth part: a plaintext
buffer holds its fields one after the other. -/
def encode : List stored_field → List Nat
  | [] => []
  | f :: fs => encode_field f ++ encode fs

/-- What the specification says the digest accumulator receives: the payload bytes, in
file order, of the fields whose length is not 0, and nothing else. -/
def payloads : List stored_field → List Nat
  | [] => []
  | f :: fs => if 0 < f.val.length then f.val ++ payloads fs else payloads fs

instance : DecidablePred block_padded := fun f => by
  unfold block_padded
  infer_instance

/-- Two stored fields: an empty end-of-header field and a text field holding hello. -/
def sample_fields (p q : Nat) : List stored_field :=
  [{ type := 0xff, val := [], pad := List.replicate 11 p },
   { type := 3, val := [104, 101, 108, 108, 111], pad := List.replicate 6 q }]

/-- A 16-byte buffer whose only field announces 12 payload bytes after its five
length and type bytes. -/
def overlong_buf : List Nat := [12, 0, 0, 0, 1] ++ List.replicate 11 0

/-- The container format in the words of the specification, fifth part: the bytes a
field's interpretation takes from its value lie inside the buffer, `rest` being the
bytes stored after the field: the 16 bytes of a UUID, and the bytes the text
conversion examines for a text; the 4 bytes of a timestamp always do. -/
def print_fits (mbsrtowcs : List Nat → Nat → Option Nat) (state : ParseState)
    (f : stored_field) (rest : List Nat) : Bool :=
  match (if state = ParseState.DB then db_print f.type else hd_print f.type) with
  | some Interp.uuid => decide (16 ≤ f.val.length + f.pad.length + rest.length)
  | some Interp.text =>
    match mbsrtowcs (f.val ++ f.pad ++ rest) f.val.length with
    | some n => decide (n ≤ f.val.length + f.pad.length + rest.length)
    | none => false
  | _ => true

/-- The condition `print_fits` for every field of a buffer, the fields after the first
one of type 0xff being interpreted with the record table. -/
def prints_fit (mbsrtowcs : List Nat → Nat → Option Nat) :
    ParseState → List stored_field → Bool
  | _, [] => true
  | state, f :: fs =>
    print_fits mbsrtowcs state f (encode fs)
      && prints_fit mbsrtowcs (if f.type = 0xff then ParseState.DB else state) fs

/-- Two block-padded fields: an empty end-of-header field and a UUID field with a
payload of 3 bytes, which ends the buffer. -/
def short_uuid_fields : List stored_field :=
  [{ type := 0xff, val := [], pad := List.replicate 11 0 },
   { type := 1, val := [1, 2, 3], pad := List.replicate 8 0 }]

/-- One block-padded text field that fills a 16-byte buffer: 11 payload bytes holding
five two-byte characters and one one-byte character. -/
def wide_text_fields : List stored_field :=
  [{ type := 3, val := [0xc3, 0xa9, 0xc3, 0xa9, 0xc3, 0xa9, 0xc3, 0xa9, 0xc3, 0xa9, 0x61],
     pad := [] }]

/-- The relation between a parse state and the lines printed before it was reached: a
line was classified with the record table exactly when an earlier line has type 0xff,
each line carries the interpretation its table selects, and the state is `DB`
exactly when some line has type 0xff. -/
def follows_sentinel (state : ParseState) (tr : List field_line) : Prop :=
  (∀ (i : Nat) (l : field_line), tr[i]? = some l →
      (l.table = ParseState.DB ↔
          ∃ (j : Nat) (l' : field_line), j < i ∧ tr[j]? = some l' ∧ l'.type = 0xff)
        ∧ l.interp = (if l.table = ParseState.DB then db_print l.type else hd_print l.type))
    ∧ (state = ParseState.DB ↔
        ∃ (j : Nat) (l' : field_line), tr[j]? = some l' ∧ l'.type = 0xff)

/-- A file with its last 32 bytes, the stored authentication tag, replaced. -/
def retag (file tag : List Nat) : List Nat := file.take (file.length - 32) ++ tag

/-- An outcome in which the stored tag shown by the report is replaced. -/
def Outcome.with_stored (tag : List Nat) : Outcome → Outcome
  | .exit s (some r) => .exit s (some { r with hmac_stored := tag })
  | o => o

/-- Four block-padded fields whose print reads stay inside the buffer: a UUID of 16
bytes and a timestamp in the header, the empty end-of-header field, and a text. -/
def mixed_fields : List stored_field :=
  [{ type := 1, val := List.range 16, pad := List.replicate 11 7 },
   { type := 4, val := [1, 2, 3, 4], pad := List.replicate 7 7 },
   { type := 0xff, val := [], pad := List.replicate 11 7 },
   { type := 3, val := [104, 101, 108, 108, 111], pad := List.replicate 6 7 }]

/-! ## Key derivation -/

theorem stretch_loop_eq (G : Gcrypt) (n : Nat) (hd : md_hd) (skey : List Nat)
    (hh : hd.hmac = false) (hk : skey.length ≤ 32) :
    (stretch_loop G n hd skey).2 = (digest32 G)^[n] skey := by
  induction n generalizing hd skey with
  | zero => rfl
  | succ n ih =>
    have htake : skey.take 32 = skey := List.take_of_length_le hk
    simp only [stretch_loop, Function.iterate_succ_apply]
    rw [ih]
    · simp [gcry_md_read, gcry_md_write, gcry_md_reset, hh, htake, digest32]
    · simp [gcry_md_write, gcry_md_reset, hh]
    · simp

theorem digest32_length_le (G : Gcrypt) (m : List Nat) : (digest32 G m).length ≤ 32 := by
  simp [digest32]

theorem iterate_digest32_length_le (G : Gcrypt) (n : Nat) (k : List Nat) (hk : k.length ≤ 32) :
    ((digest32 G)^[n] k).length ≤ 32 := by
  cases n with
  | zero => simpa using hk
  | succ n =>
    rw [Function.iterate_succ_apply']
    exact digest32_length_le G _

theorem stretch_key_eq (G : Gcrypt) (pass : List Nat) (pro : psafe3_header) (passlen : Nat)
    (hopen : G.md_open_err = GPG_ERR_NO_ERROR) :
    stretch_key G pass passlen pro =
      .ok ((digest32 G)^[pro.iter % U32_MOD]
        (digest32 G (pass.take passlen ++ pro.salt.take 32))) := by
  simp only [stretch_key, hopen, ne_eq, not_true_eq_false, if_false]
  rw [stretch_loop_eq]
  · simp [gcry_md_read, gcry_md_write, gcry_md_new, digest32]
  · simp [gcry_md_write, gcry_md_new]
  · simp

/-- C3: for every passphrase, 32-byte salt and 32-bit iteration count N, `stretch_key`
returns the digest applied N times to the digest of passphrase followed by salt, each
later round being fed only the previous digest; the result for N + 1 is the digest of
the result for N, and the result for N = 0 is the digest of passphrase followed by
salt. -/
theorem stretch_key_iterated_digest (G : Gcrypt) (pass : List Nat) (pro : psafe3_header)
    (hopen : G.md_open_err = GPG_ERR_NO_ERROR) (hsalt : pro.salt.length = 32)
    (hiter : pro.iter < U32_MOD) :
    stretch_key G pass pass.length pro =
        .ok ((digest32 G)^[pro.iter] (digest32 G (pass ++ pro.salt)))
      ∧ (pro.iter + 1 < U32_MOD →
          stretch_key G pass pass.length { pro with iter := pro.iter + 1 } =
            .ok (digest32 G ((digest32 G)^[pro.iter] (digest32 G (pass ++ pro.salt)))))
      ∧ stretch_key G pass pass.length { pro with iter := 0 } =
        .ok (digest32 G (pass ++ pro.salt)) := by
  have hs : pro.salt.take 32 = pro.salt := List.take_of_length_le (le_of_eq hsalt)
  have h0 : pro.iter % U32_MOD = pro.iter := Nat.mod_eq_of_lt hiter
  refine ⟨?_, ?_, ?_⟩
  · rw [stretch_key_eq G pass pro pass.length hopen, h0, List.take_length, hs]
  · intro hnext
    have h1 : (pro.iter + 1) % U32_MOD = pro.iter + 1 := Nat.mod_eq_of_lt hnext
    rw [stretch_key_eq G pass _ pass.length hopen]
    simp only [h1, List.take_length, hs, Function.iterate_succ_apply']
  · rw [stretch_key_eq G pass _ pass.length hopen]
    simp [U32_MOD, hs]

theorem stretch_key_iterated_digest_witness :
    stretch_key toy_gcrypt [112, 119] 2 toy_header =
        .ok ((digest32 toy_gcrypt)^[3] (digest32 toy_gcrypt ([112, 119] ++ toy_header.salt)))
      ∧ (3 + 1 < U32_MOD →
          stretch_key toy_gcrypt [112, 119] 2 { toy_header with iter := 3 + 1 } =
            .ok (digest32 toy_gcrypt
              ((digest32 toy_gcrypt)^[3]
                (digest32 toy_gcrypt ([112, 119] ++ toy_header.salt)))))
      ∧ stretch_key toy_gcrypt [112, 119] 2 { toy_header with iter := 0 } =
        .ok (digest32 toy_gcrypt ([112, 119] ++ toy_header.salt)) :=
  stretch_key_iterated_digest toy_gcrypt [112, 119] toy_header rfl rfl (by decide)

theorem stretch_key_length_le (G : Gcrypt) (pass : List Nat) (passlen : Nat)
    (pro : psafe3_header) (skey : List Nat)
    (h : stretch_key G pass passlen pro = .ok skey) : skey.length ≤ 32 := by
  by_cases hopen : G.md_open_err = GPG_ERR_NO_ERROR
  · rw [stretch_key_eq G pass pro passlen hopen] at h
    injection h with h
    rw [← h]
    exact iterate_digest32_length_le G _ _ (digest32_length_le G _)
  · simp [stretch_key, hopen] at h

theorem sha256_block32_eq (G : Gcrypt) (inp : List Nat)
    (hopen : G.md_open_err = GPG_ERR_NO_ERROR) (hlen : inp.length ≤ 32) :
    sha256_block32 G inp = .ok (digest32 G inp) := by
  simp [sha256_block32, hopen, gcry_md_read, gcry_md_write, gcry_md_new, digest32,
    List.take_of_length_le hlen]

theorem ecb_decrypt_handle (G : Gcrypt) (key out inp : List Nat) :
    gcry_cipher_reset
        (gcry_cipher_decrypt G { mode := .ECB, keyed := true, key := key, iv := ZERO_IV } out inp).2.1 =
      { mode := .ECB, keyed := true, key := key, iv := ZERO_IV } := by
  by_cases h : G.ecb_decrypt_err = GPG_ERR_NO_ERROR <;>
    simp [gcry_cipher_decrypt, gcry_cipher_reset, h]

theorem extract_random_key_eq (G : Gcrypt) (stretchkey fst snd randkey : List Nat)
    (hopen : G.ecb_open_err = GPG_ERR_NO_ERROR) (hkey : G.ecb_setkey_err = GPG_ERR_NO_ERROR) :
    extract_random_key G stretchkey fst snd randkey =
      .ok ((gcry_cipher_decrypt G { mode := .ECB, keyed := true, key := stretchkey.take 32, iv := ZERO_IV }
              (randkey.take 16) (fst.take 16)).2.2
        ++ (gcry_cipher_decrypt G { mode := .ECB, keyed := true, key := stretchkey.take 32, iv := ZERO_IV }
              ((randkey.drop 16).take 16) (snd.take 16)).2.2) := by
  simp only [extract_random_key, hopen, hkey, ne_eq, not_true_eq_false, if_false,
    ecb_decrypt_handle]

/-- C2: when the provider's setup calls succeed, `stretch_and_check_pass` returns 0
exactly when the digest of the stretched key equals the 32 bytes of the stored verifier
`h_pprime`, and returns -1 otherwise; when it returns -1 no key is unwrapped and
`rand_k` and `rand_l` are as they were. -/
theorem stretch_and_check_pass_verifier (G : Gcrypt) (pass : List Nat) (passlen : Nat)
    (pro : psafe3_header) (sec : safe_sec)
    (hmd : G.md_open_err = GPG_ERR_NO_ERROR) (hopen : G.ecb_open_err = GPG_ERR_NO_ERROR)
    (hkey : G.ecb_setkey_err = GPG_ERR_NO_ERROR) (hver : pro.h_pprime.length = 32) :
    ∃ skey ret sec', stretch_key G pass passlen pro = .ok skey
      ∧ stretch_and_check_pass G pass passlen pro sec = .ok (ret, sec')
      ∧ (ret = 0 ↔ digest32 G skey = pro.h_pprime)
      ∧ (ret = 0 ∨ ret = -1)
      ∧ (ret = -1 → sec'.rand_k = sec.rand_k ∧ sec'.rand_l = sec.rand_l) := by
  obtain ⟨skey, hsk⟩ : ∃ skey, stretch_key G pass passlen pro = .ok skey :=
    ⟨_, stretch_key_eq G pass pro passlen hmd⟩
  have hlen := stretch_key_length_le G pass passlen pro skey hsk
  have hv : pro.h_pprime.take 32 = pro.h_pprime := List.take_of_length_le (le_of_eq hver)
  have hd : (digest32 G skey).take 32 = digest32 G skey :=
    List.take_of_length_le (digest32_length_le G _)
  by_cases heq : pro.h_pprime = digest32 G skey
  · have hrun : ∃ sec', stretch_and_check_pass G pass passlen pro sec = .ok (0, sec') := by
      simp only [stretch_and_check_pass, hsk, sha256_block32_eq G _ hmd hlen, hv, hd, ne_eq,
        heq.symm, not_true_eq_false, if_false, extract_random_key_eq G _ _ _ _ hopen hkey]
      exact ⟨_, rfl⟩
    obtain ⟨sec', hrun⟩ := hrun
    refine ⟨skey, 0, sec', hsk, hrun, ?_, Or.inl rfl, ?_⟩
    · simp [heq]
    · intro h; simp at h
  · refine ⟨skey, -1, { sec with pprime := skey }, hsk, ?_, ?_, Or.inr rfl, ?_⟩
    · simp only [stretch_and_check_pass, hsk, sha256_block32_eq G _ hmd hlen, hv, hd, ne_eq,
        heq, not_false_eq_true, if_true]
    · constructor
      · intro h; simp at h
      · intro h; exact absurd h.symm heq
    · intro _; exact ⟨rfl, rfl⟩

theorem stretch_and_check_pass_verifier_witness :
    ∃ skey ret sec', stretch_key toy_gcrypt [112, 120] 2 toy_header = .ok skey
      ∧ stretch_and_check_pass toy_gcrypt [112, 120] 2 toy_header
          { pprime := [], rand_k := [1], rand_l := [2] } = .ok (ret, sec')
      ∧ (ret = 0 ↔ digest32 toy_gcrypt skey = toy_header.h_pprime)
      ∧ (ret = 0 ∨ ret = -1)
      ∧ (ret = -1 → sec'.rand_k = [1] ∧ sec'.rand_l = [2]) :=
  stretch_and_check_pass_verifier toy_gcrypt [112, 120] 2 toy_header
    { pprime := [], rand_k := [1], rand_l := [2] } rfl rfl rfl rfl

/-! ## Key unwrapping -/

theorem ecb_decrypt_out (G : Gcrypt) (key out inp : List Nat)
    (hdec : G.ecb_decrypt_err = GPG_ERR_NO_ERROR) :
    (gcry_cipher_decrypt G { mode := .ECB, keyed := true, key := key, iv := ZERO_IV } out inp).2.2 =
      G.twofish_dec key inp := by
  simp [gcry_cipher_decrypt, hdec]

theorem stretch_and_check_pass_unwraps (G : Gcrypt) (pass : List Nat) (passlen : Nat)
    (pro : psafe3_header) (sec sec' : safe_sec)
    (h : stretch_and_check_pass G pass passlen pro sec = .ok (0, sec')) :
    stretch_key G pass passlen pro = .ok sec'.pprime
      ∧ extract_random_key G sec'.pprime (pro.b 0) (pro.b 1) sec.rand_k = .ok sec'.rand_k
      ∧ extract_random_key G sec'.pprime (pro.b 2) (pro.b 3) sec.rand_l = .ok sec'.rand_l := by
  simp only [stretch_and_check_pass] at h
  split at h
  · simp at h
  · rename_i pprime hs
    split at h
    · simp at h
    · split at h
      · simp at h
      · split at h
        · simp at h
        · rename_i hk
          split at h
          · simp at h
          · rename_i hl
            simp only [Except.ok.injEq, Prod.mk.injEq, true_and] at h
            subst h
            exact ⟨hs, hk, hl⟩

theorem toy_twofish_inverse (k b : List Nat) : toy_twofish k (toy_twofish k b) = b := by
  simp only [toy_twofish, List.map_map]
  conv_rhs => rw [← List.map_id b]
  apply List.map_congr_left
  intro x _
  show Nat.xor (Nat.xor x (k.headD 0)) (k.headD 0) = x
  exact Nat.xor_cancel_right _ _

/-- C4: key unwrapping round-trips.  For a 32-byte stretched key S and 16-byte halves K1
and K2, if `fst` and `snd` are the ECB encryptions of K1 and K2 under S then
`extract_random_key` returns K1 followed by K2; each output half is the block
decryption of its own input block alone; and a successful `stretch_and_check_pass`
leaves in `pprime` the stretched key and, unwrapped with it, in `rand_k` the key from
header blocks 0 and 1 and in `rand_l` the key from blocks 2 and 3. -/
theorem extract_random_key_roundtrip (G : Gcrypt) (enc : List Nat → List Nat → List Nat)
    (S K1 K2 randkey : List Nat)
    (hopen : G.ecb_open_err = GPG_ERR_NO_ERROR) (hkey : G.ecb_setkey_err = GPG_ERR_NO_ERROR)
    (hdec : G.ecb_decrypt_err = GPG_ERR_NO_ERROR)
    (henc : ∀ k b, b.length = 16 → (enc k b).length = 16 ∧ G.twofish_dec k (enc k b) = b)
    (hS : S.length = 32) (h1 : K1.length = 16) (h2 : K2.length = 16) :
    extract_random_key G S (enc S K1) (enc S K2) randkey = .ok (K1 ++ K2)
      ∧ (∀ fst snd, fst.length = 16 → snd.length = 16 →
          extract_random_key G S fst snd randkey =
            .ok (G.twofish_dec S fst ++ G.twofish_dec S snd))
      ∧ (∀ pass passlen pro sec sec',
          stretch_and_check_pass G pass passlen pro sec = .ok (0, sec') →
          stretch_key G pass passlen pro = .ok sec'.pprime
            ∧ extract_random_key G sec'.pprime (pro.b 0) (pro.b 1) sec.rand_k = .ok sec'.rand_k
            ∧ extract_random_key G sec'.pprime (pro.b 2) (pro.b 3) sec.rand_l
                = .ok sec'.rand_l) := by
  have hST : S.take 32 = S := List.take_of_length_le (le_of_eq hS)
  have hblocks : ∀ fst snd, fst.length = 16 → snd.length = 16 →
      extract_random_key G S fst snd randkey =
        .ok (G.twofish_dec S fst ++ G.twofish_dec S snd) := by
    intro fst snd hf hs
    rw [extract_random_key_eq G S fst snd randkey hopen hkey, ecb_decrypt_out G _ _ _ hdec,
      ecb_decrypt_out G _ _ _ hdec, hST, List.take_of_length_le (le_of_eq hf),
      List.take_of_length_le (le_of_eq hs)]
  refine ⟨?_, hblocks, ?_⟩
  · rw [hblocks _ _ (henc S K1 h1).1 (henc S K2 h2).1, (henc S K1 h1).2, (henc S K2 h2).2]
  · intro pass passlen pro sec sec' h
    exact stretch_and_check_pass_unwraps G pass passlen pro sec sec' h

theorem extract_random_key_roundtrip_witness :
    extract_random_key toy_gcrypt (List.replicate 32 129)
        (toy_twofish (List.replicate 32 129) (List.range 16))
        (toy_twofish (List.replicate 32 129) (List.replicate 16 7)) []
        = .ok (List.range 16 ++ List.replicate 16 7)
      ∧ (∀ fst snd, fst.length = 16 → snd.length = 16 →
          extract_random_key toy_gcrypt (List.replicate 32 129) fst snd [] =
            .ok (toy_gcrypt.twofish_dec (List.replicate 32 129) fst
              ++ toy_gcrypt.twofish_dec (List.replicate 32 129) snd))
      ∧ (∀ pass passlen pro sec sec',
          stretch_and_check_pass toy_gcrypt pass passlen pro sec = .ok (0, sec') →
          stretch_key toy_gcrypt pass passlen pro = .ok sec'.pprime
            ∧ extract_random_key toy_gcrypt sec'.pprime (pro.b 0) (pro.b 1) sec.rand_k
              = .ok sec'.rand_k
            ∧ extract_random_key toy_gcrypt sec'.pprime (pro.b 2) (pro.b 3) sec.rand_l
                = .ok sec'.rand_l) :=
  extract_random_key_roundtrip toy_gcrypt toy_twofish (List.replicate 32 129) (List.range 16)
    (List.replicate 16 7) [] rfl rfl rfl
    (fun k b hb => ⟨by simp [toy_twofish, hb], toy_twofish_inverse k b⟩) rfl rfl rfl

/-! ## Setting up the decryption context -/

theorem init_decrypt_ctx_returns_zero_iff (G : Gcrypt) (ctx : crypto_ctx) (pro : psafe3_header)
    (sec : safe_sec) :
    (init_decrypt_ctx G ctx pro sec).1 = 0 ↔
      G.cbc_open_err = GPG_ERR_NO_ERROR ∧ G.hmac_open_err = GPG_ERR_NO_ERROR
        ∧ G.hmac_setkey_err = GPG_ERR_NO_ERROR := by
  unfold init_decrypt_ctx
  by_cases h1 : G.cbc_open_err = GPG_ERR_NO_ERROR <;>
  by_cases h4 : G.hmac_open_err = GPG_ERR_NO_ERROR <;>
  by_cases h5 : G.hmac_setkey_err = GPG_ERR_NO_ERROR <;>
  simp [h1, h4, h5]

/-- C9, where the code departs from the claim: when only the cipher set-key step fails
(error code 50), `init_decrypt_ctx` returns 0 with a cipher handle that has no key and
with `ctx->gerr` holding the code of the later set-IV step, so `main` does not stop
with the primitive error at the call: with a library that refuses a handle without a
key the run ends in the decryption loop with that library's missing-key code, and with
a library that does not refuse it the body is decrypted without a key and decoded. -/
theorem init_decrypt_ctx_misses_setkey_error :
    init_decrypt_ctx setkey_failing_gcrypt { cipher := none, hmac := none, gerr := 0 }
        toy_header { pprime := [], rand_k := List.replicate 32 9, rand_l := List.replicate 32 8 }
      = (0, { cipher := some { mode := .CBC, keyed := false, key := [], iv := toy_header.iv },
              hmac := some { hmac := true, key := List.replicate 32 8, buf := [] },
              gerr := 0 })
    ∧ main { toy_env with gcrypt := setkey_failing_gcrypt } toy_argv
        (some (toy_file (List.replicate 32 114))) = Outcome.fatal 181
    ∧ main { toy_env with gcrypt := setkey_failing_old_gcrypt } toy_argv
        (some (toy_file (List.replicate 32 114))) = Outcome.fault 327 := by
  refine ⟨rfl, ?_, ?_⟩
  · set_option maxRecDepth 100000 in decide
  · set_option maxRecDepth 100000 in decide

/-! ## The size of the body -/

theorem body_size_of_long_file (sz sizeof_hdr : Nat) (h : 4 + sizeof_hdr + 48 ≤ sz)
    (hmax : sz < SIZE_MOD) : body_size sz sizeof_hdr = sz - (4 + sizeof_hdr + 48) := by
  have h1 : sz % SIZE_MOD = sz := Nat.mod_eq_of_lt hmax
  have h2 : (4 + sizeof_hdr + 48) % SIZE_MOD = 4 + sizeof_hdr + 48 :=
    Nat.mod_eq_of_lt (by omega)
  have h3 : sz + SIZE_MOD - (4 + sizeof_hdr + 48) = (sz - (4 + sizeof_hdr + 48)) + SIZE_MOD := by
    omega
  rw [body_size, h1, h2, h3, Nat.add_mod_right, Nat.mod_eq_of_lt (by omega)]

theorem body_size_of_short_file (sz sizeof_hdr : Nat) (h : sz < 4 + sizeof_hdr + 48)
    (hmax : 4 + sizeof_hdr + 48 < SIZE_MOD) :
    body_size sz sizeof_hdr = SIZE_MOD - (4 + sizeof_hdr + 48 - sz)
      ∧ 0 < body_size sz sizeof_hdr
      ∧ (body_size sz sizeof_hdr % TWOFISH_SIZE = 0 ↔
          (4 + sizeof_hdr + 48 - sz) % TWOFISH_SIZE = 0) := by
  have h1 : sz % SIZE_MOD = sz := Nat.mod_eq_of_lt (by omega)
  have h2 : (4 + sizeof_hdr + 48) % SIZE_MOD = 4 + sizeof_hdr + 48 := Nat.mod_eq_of_lt hmax
  have h3 : body_size sz sizeof_hdr = SIZE_MOD - (4 + sizeof_hdr + 48 - sz) := by
    rw [body_size, h1, h2, Nat.mod_eq_of_lt (by omega)]
    omega
  refine ⟨h3, by omega, ?_⟩
  rw [h3]
  simp only [SIZE_MOD, TWOFISH_SIZE] at *
  omega

/-- C5, where the code departs from the claim: for a file of 184 bytes the body length
184 - 4 - 148 - 48 is -16 as an integer, yet `safe_size` is 2^64 - 16, positive and a
multiple of 16, so both size assertions pass; the run is stopped by the allocation
assertion when the allocator refuses, and enters the decryption loop when it returns a
block. -/
theorem main_short_file_passes_size_asserts :
    short_file.length = 184
    ∧ (184 : Int) - 4 - (toy_env.sizeof_hdr : Int) - 48 = -16
    ∧ body_size 184 toy_env.sizeof_hdr = 2 ^ 64 - 16
    ∧ 0 < body_size 184 toy_env.sizeof_hdr
    ∧ body_size 184 toy_env.sizeof_hdr % TWOFISH_SIZE = 0
    ∧ main { toy_env with malloc_safe := fun _ => none } toy_argv (some short_file)
        = Outcome.abort 288
    ∧ main { toy_env with malloc_safe := fun _ => some [] } toy_argv (some short_file)
        = Outcome.fault 303 := by
  refine ⟨by simp [short_file, toy_head], by decide, by decide, by decide, by decide, ?_, ?_⟩
  · set_option maxRecDepth 100000 in decide
  · set_option maxRecDepth 100000 in decide

/-! ## The cursor increment -/

theorem field_advance_eq (len : Nat) (h : len + 20 < U32_MOD) :
    field_advance len = (len + 5 + 15) / 16 * 16 := by
  unfold field_advance TWOFISH_SIZE
  rw [Nat.mod_eq_of_lt (by omega)]

theorem field_advance_ge (len : Nat) (h : len + 20 < U32_MOD) :
    16 ≤ field_advance len ∧ len + 5 ≤ field_advance len ∧ field_advance len < len + 5 + 16
      ∧ field_advance len % 16 = 0 := by
  rw [field_advance_eq len h]
  omega

/-- C7, where the code departs from the claim: the 32-bit length 4294967276 makes the sum
`len + 5 + 15` wrap to 0 in `unsigned int`, so the cursor advances by 0 bytes, not by
ceil((len + 5) / 16) * 16 = 4294967296 and not by at least one block. -/
theorem field_advance_wraps :
    4294967276 < U32_MOD
    ∧ field_advance 4294967276 = 0
    ∧ (4294967276 + FIELD_HDR_SIZE + (TWOFISH_SIZE - 1)) / TWOFISH_SIZE * TWOFISH_SIZE
        = 4294967296 := by
  decide

/-! ## The parse state -/

theorem follows_sentinel_step (s : ParseState) (tr : List field_line) (off len t : Nat)
    (pr : Option Nat) (h : follows_sentinel s tr) :
    follows_sentinel (if t = 0xff then ParseState.DB else s)
      (tr ++ [{ off := off, table := s, len := len, type := t,
                interp := if s = ParseState.DB then db_print t else hd_print t,
                print_read := pr }]) := by
  obtain ⟨h1, h2⟩ := h
  constructor
  · intro i l hl
    rcases Nat.lt_or_ge i tr.length with hi | hi
    · rw [List.getElem?_append_left hi] at hl
      obtain ⟨hiff, hint⟩ := h1 i l hl
      refine ⟨?_, hint⟩
      rw [hiff]
      constructor
      · rintro ⟨j, l', hj, hl', ht⟩
        exact ⟨j, l', hj, by rw [List.getElem?_append_left (by omega)]; exact hl', ht⟩
      · rintro ⟨j, l', hj, hl', ht⟩
        rw [List.getElem?_append_left (by omega)] at hl'
        exact ⟨j, l', hj, hl', ht⟩
    · rw [List.getElem?_append_right hi] at hl
      have hi0 : i - tr.length = 0 := by
        by_contra hne
        rw [List.getElem?_eq_none (by simp; omega)] at hl
        exact Option.noConfusion hl
      have hieq : i = tr.length := by omega
      rw [hi0] at hl
      simp only [List.getElem?_cons_zero, Option.some.injEq] at hl
      subst hl
      refine ⟨?_, rfl⟩
      show s = ParseState.DB ↔ _
      refine h2.trans ?_
      constructor
      · rintro ⟨j, l', hl', ht⟩
        have hj : j < tr.length := (List.getElem?_eq_some.mp hl').1
        exact ⟨j, l', by omega, by rw [List.getElem?_append_left hj]; exact hl', ht⟩
      · rintro ⟨j, l', hj, hl', ht⟩
        rw [List.getElem?_append_left (by omega)] at hl'
        exact ⟨j, l', hl', ht⟩
  · by_cases ht : t = 0xff
    · simp only [ht, if_true, true_iff]
      exact ⟨tr.length, _, List.getElem?_concat_length tr _, rfl⟩
    · simp only [ht, if_false]
      refine h2.trans ?_
      constructor
      · rintro ⟨j, l', hl', ht'⟩
        have hj : j < tr.length := (List.getElem?_eq_some.mp hl').1
        exact ⟨j, l', by rw [List.getElem?_append_left hj]; exact hl', ht'⟩
      · rintro ⟨j, l', hl', ht'⟩
        rcases Nat.lt_or_ge j tr.length with hj | hj
        · rw [List.getElem?_append_left hj] at hl'
          exact ⟨j, l', hl', ht'⟩
        · rw [List.getElem?_append_right hj] at hl'
          have hj0 : j - tr.length = 0 := by
            by_contra hne
            rw [List.getElem?_eq_none (by simp; omega)] at hl'
            exact Option.noConfusion hl'
          rw [hj0] at hl'
          simp only [List.getElem?_cons_zero, Option.some.injEq] at hl'
          subst hl'
          exact absurd ht' ht

theorem field_loop_follows_sentinel (mbs : List Nat → Nat → Option Nat) (safe : List Nat)
    (safe_size fuel : Nat) (st : decode_st) (h : follows_sentinel st.state st.printed) :
    follows_sentinel (field_loop mbs safe safe_size fuel st).2.state
      (field_loop mbs safe safe_size fuel st).2.printed := by
  induction fuel generalizing st with
  | zero => exact h
  | succ fuel ih =>
    unfold field_loop
    split
    · split
      · exact h
      · rename_i fld hfld
        have hstep := follows_sentinel_step st.state st.printed st.safep (field_len fld)
          (field_type fld)
          (print_reads mbs safe (st.safep + FIELD_HDR_SIZE) (field_len fld)
            (if st.state = ParseState.DB then db_print (field_type fld)
             else hd_print (field_type fld))) h
        dsimp only
        split
        · split
          · exact hstep
          · split
            · exact hstep
            · exact ih _ hstep
        · split
          · exact hstep
          · exact ih _ hstep
    · exact h

/-- C8: in the decoding loop, started in state `HDR`, after any number of iterations
over any buffer: a field is classified with the record table (`db_print`) exactly
when an earlier field has type 0xff, and with the header table (`hd_print`)
otherwise, so every field up to and including the first one of type 0xff is classified
with the header table; once a field was classified with the record table every later
field is, also after another field of type 0xff; and the state is `DB` exactly when
some decoded field has type 0xff. -/
theorem parse_state_changes_once (mbs : List Nat → Nat → Option Nat) (safe : List Nat)
    (safe_size fuel : Nat) (hmac : md_hd) :
    (∀ (i : Nat) (l : field_line),
        (field_loop mbs safe safe_size fuel (decode_init hmac)).2.printed[i]? = some l →
        (l.table = ParseState.DB ↔
            ∃ (j : Nat) (l' : field_line), j < i
              ∧ (field_loop mbs safe safe_size fuel (decode_init hmac)).2.printed[j]? = some l'
              ∧ l'.type = 0xff)
          ∧ l.interp = (if l.table = ParseState.DB then db_print l.type else hd_print l.type))
      ∧ (∀ (i j : Nat) (l l' : field_line), i ≤ j →
          (field_loop mbs safe safe_size fuel (decode_init hmac)).2.printed[i]? = some l →
          (field_loop mbs safe safe_size fuel (decode_init hmac)).2.printed[j]? = some l' →
          l.table = ParseState.DB → l'.table = ParseState.DB)
      ∧ ((field_loop mbs safe safe_size fuel (decode_init hmac)).2.state = ParseState.DB ↔
          ∃ (j : Nat) (l' : field_line),
            (field_loop mbs safe safe_size fuel (decode_init hmac)).2.printed[j]? = some l'
              ∧ l'.type = 0xff) := by
  have hinit : follows_sentinel (decode_init hmac).state (decode_init hmac).printed := by
    constructor
    · intro i l hl
      simp [decode_init] at hl
    · simp [decode_init]
  obtain ⟨h1, h2⟩ := field_loop_follows_sentinel mbs safe safe_size fuel _ hinit
  refine ⟨h1, ?_, h2⟩
  intro i j l l' hij hl hl' hdb
  obtain ⟨k, lk, hk, hlk, hty⟩ := (h1 i l hl).1.mp hdb
  exact (h1 j l' hl').1.mpr ⟨k, lk, by omega, hlk, hty⟩

/-! ## Decoding a buffer of stored fields -/

theorem peek_mid (a x b : List Nat) : peek (a ++ x ++ b) a.length x.length = some x := by
  simp [peek]

theorem field_len_store (L t : Nat) (h : L < U32_MOD) : field_len (store_le32 L ++ [t]) = L := by
  simp [field_len, store_le32, U32_MOD] at *
  omega

theorem field_type_store (L t : Nat) : field_type (store_le32 L ++ [t]) = t := by
  simp [field_type, store_le32]

theorem gcry_md_write_nil (hd : md_hd) : gcry_md_write hd [] = hd := by
  simp [gcry_md_write]

theorem gcry_md_write_write (hd : md_hd) (a b : List Nat) :
    gcry_md_write (gcry_md_write hd a) b = gcry_md_write hd (a ++ b) := by
  simp [gcry_md_write]

theorem encode_field_length (f : stored_field) (hf : block_padded f) :
    (encode_field f).length = field_advance f.val.length := by
  obtain ⟨h1, h2⟩ := hf
  rw [field_advance_eq _ h1]
  simp only [FIELD_HDR_SIZE, TWOFISH_SIZE] at h2
  simp only [encode_field, store_le32, List.length_append, List.length_cons, List.length_nil]
  omega

theorem field_loop_step (mbs : List Nat → Nat → Option Nat) (safe pre rest : List Nat)
    (f : stored_field) (st : decode_st)
    (fuel : Nat) (hf : block_padded f) (hsafe : safe = pre ++ encode_field f ++ rest)
    (hpos : st.safep = pre.length) :
    field_loop mbs safe safe.length (fuel + 1) st =
      field_loop mbs safe safe.length fuel
        { safep := pre.length + (encode_field f).length
          state := if f.type = 0xff then ParseState.DB else st.state
          hmac := gcry_md_write st.hmac f.val
          printed := st.printed ++
            [{ off := pre.length, table := st.state, len := f.val.length, type := f.type,
               interp := if st.state = ParseState.DB then db_print f.type
                         else hd_print f.type,
               print_read := print_reads mbs safe (pre.length + FIELD_HDR_SIZE) f.val.length
                 (if st.state = ParseState.DB then db_print f.type else hd_print f.type) }] } := by
  have hadv := encode_field_length f hf
  have hge := field_advance_ge f.val.length hf.1
  have hlt : st.safep < safe.length := by
    rw [hpos, hsafe]
    simp only [List.length_append]
    omega
  have hpk : peek safe st.safep FIELD_HDR_SIZE = some (store_le32 f.val.length ++ [f.type]) := by
    have := peek_mid pre (store_le32 f.val.length ++ [f.type]) (f.val ++ f.pad ++ rest)
    rw [hpos, hsafe]
    simpa [encode_field, FIELD_HDR_SIZE, store_le32] using this
  have hlen : field_len (store_le32 f.val.length ++ [f.type]) = f.val.length :=
    field_len_store _ _ (by have := hf.1; omega)
  have hty : field_type (store_le32 f.val.length ++ [f.type]) = f.type := field_type_store _ _
  have hne : field_advance f.val.length ≠ 0 := by omega
  by_cases h0 : f.val.length = 0
  · have hval : f.val = [] := List.length_eq_zero.mp h0
    rw [field_loop]
    simp only [hlt, if_true, hpk, hlen, hty]
    simp only [h0, ne_eq, not_true_eq_false, if_false]
    rw [h0] at hne hadv
    simp only [hne, if_false, hadv, hval, gcry_md_write_nil, List.length_nil, hpos]
  · have hpv : peek safe (st.safep + FIELD_HDR_SIZE) f.val.length = some f.val := by
      have := peek_mid (pre ++ (store_le32 f.val.length ++ [f.type])) f.val (f.pad ++ rest)
      rw [hpos, hsafe]
      simpa [encode_field, FIELD_HDR_SIZE, store_le32] using this
    rw [field_loop]
    simp only [hlt, if_true, hpk, hlen, hty]
    simp only [h0, ne_eq, not_false_eq_true, if_true, hpv, hne, if_false]
    rw [hadv, hpos]

theorem print_reads_fits (mbs : List Nat → Nat → Option Nat) (safe pre rest : List Nat)
    (f : stored_field) (state : ParseState) (hf : block_padded f)
    (hsafe : safe = pre ++ encode_field f ++ rest)
    (hfit : print_fits mbs state f rest = true) :
    ∃ n, print_reads mbs safe (pre.length + FIELD_HDR_SIZE) f.val.length
          (if state = ParseState.DB then db_print f.type else hd_print f.type) = some n
      ∧ pre.length + FIELD_HDR_SIZE + n ≤ safe.length := by
  have hge := field_advance_ge f.val.length hf.1
  have hadv := encode_field_length f hf
  have hfl : (encode_field f).length = FIELD_HDR_SIZE + f.val.length + f.pad.length := by
    simp [encode_field, store_le32, FIELD_HDR_SIZE]
    omega
  have hlen : safe.length
      = pre.length + FIELD_HDR_SIZE + (f.val.length + f.pad.length + rest.length) := by
    rw [hsafe]
    simp only [List.length_append, hfl]
    omega
  have hdrop : safe.drop (pre.length + FIELD_HDR_SIZE) = f.val ++ f.pad ++ rest := by
    have h5 : (pre ++ (store_le32 f.val.length ++ [f.type])).length
        = pre.length + FIELD_HDR_SIZE := by
      simp [store_le32, FIELD_HDR_SIZE]
    have hs : safe = (pre ++ (store_le32 f.val.length ++ [f.type])) ++ (f.val ++ f.pad ++ rest) := by
      rw [hsafe]
      simp [encode_field]
    rw [← h5, hs, List.drop_left]
  unfold print_fits at hfit
  generalize (if state = ParseState.DB then db_print f.type else hd_print f.type) = i at hfit ⊢
  cases i with
  | none => exact ⟨0, rfl, by omega⟩
  | some x =>
    cases x with
    | text =>
      simp only [print_reads, hdrop]
      simp only at hfit
      split at hfit
      · rename_i n hn
        have hle : n ≤ f.val.length + f.pad.length + rest.length := of_decide_eq_true hfit
        exact ⟨n, by rw [if_pos (by omega)], by omega⟩
      · exact absurd hfit (by simp)
    | uuid =>
      have hle : 16 ≤ f.val.length + f.pad.length + rest.length := of_decide_eq_true hfit
      refine ⟨16, ?_, by omega⟩
      simp only [print_reads]
      rw [if_pos (by omega)]
    | time =>
      refine ⟨LOAD_LE32_SIZE, ?_, by simp only [FIELD_HDR_SIZE, LOAD_LE32_SIZE] at *; omega⟩
      simp only [print_reads]
      rw [if_pos (by simp only [FIELD_HDR_SIZE, LOAD_LE32_SIZE] at *; omega)]

theorem payloads_cons (f : stored_field) (fs : List stored_field) :
    payloads (f :: fs) = f.val ++ payloads fs := by
  rw [payloads]
  split
  · rfl
  · rename_i h
    have : f.val = [] := List.length_eq_zero.mp (by omega)
    simp [this]

theorem encode_length (fs : List stored_field) (hfs : ∀ f ∈ fs, block_padded f) :
    16 * fs.length ≤ (encode fs).length ∧ (encode fs).length % 16 = 0 := by
  induction fs with
  | nil => simp [encode]
  | cons f fs ih =>
    have hf := hfs f (List.mem_cons_self _ _)
    have hge := field_advance_ge f.val.length hf.1
    have hlen := encode_field_length f hf
    have := ih (fun g hg => hfs g (List.mem_cons_of_mem _ hg))
    simp only [encode, List.length_append, List.length_cons]
    omega

theorem field_loop_encode (mbs : List Nat → Nat → Option Nat) (fs : List stored_field)
    (hfs : ∀ f ∈ fs, block_padded f) :
    ∀ (pre safe : List Nat) (st : decode_st) (fuel : Nat),
      safe = pre ++ encode fs → st.safep = pre.length → fs.length < fuel →
      (∀ l ∈ st.printed, l.off + FIELD_HDR_SIZE + l.len ≤ safe.length) →
      (field_loop mbs safe safe.length fuel st).1 = loop_exit.done
        ∧ (field_loop mbs safe safe.length fuel st).2.safep = safe.length
        ∧ (field_loop mbs safe safe.length fuel st).2.hmac
            = gcry_md_write st.hmac (payloads fs)
        ∧ (∀ l ∈ (field_loop mbs safe safe.length fuel st).2.printed,
            l.off + FIELD_HDR_SIZE + l.len ≤ safe.length)
        ∧ (field_loop mbs safe safe.length fuel st).2.printed.map (fun l => (l.type, l.len))
            = st.printed.map (fun l => (l.type, l.len))
              ++ fs.map (fun f => (f.type, f.val.length))
        ∧ (prints_fit mbs st.state fs = true →
            (∀ l ∈ st.printed,
              ∃ n, l.print_read = some n ∧ l.off + FIELD_HDR_SIZE + n ≤ safe.length) →
            ∀ l ∈ (field_loop mbs safe safe.length fuel st).2.printed,
              ∃ n, l.print_read = some n ∧ l.off + FIELD_HDR_SIZE + n ≤ safe.length) := by
  induction fs with
  | nil =>
    intro pre safe st fuel hsafe hpos hfuel hpr
    obtain ⟨k, rfl⟩ : ∃ k, fuel = k + 1 := ⟨fuel - 1, by omega⟩
    have hend : ¬ st.safep < safe.length := by
      rw [hpos, hsafe]
      simp [encode]
    rw [field_loop, if_neg hend]
    refine ⟨rfl, ?_, ?_, hpr, ?_, fun _ h => h⟩
    · rw [hpos, hsafe]
      simp [encode]
    · simp [payloads, gcry_md_write_nil]
    · simp
  | cons f fs ih =>
    intro pre safe st fuel hsafe hpos hfuel hpr
    obtain ⟨k, rfl⟩ : ∃ k, fuel = k + 1 := ⟨fuel - 1, by omega⟩
    have hf := hfs f (List.mem_cons_self _ _)
    have hsafe' : safe = pre ++ encode_field f ++ encode fs := by
      rw [hsafe, encode, List.append_assoc]
    rw [field_loop_step mbs safe pre (encode fs) f st k hf hsafe' hpos]
    have hlenf : (encode_field f).length = FIELD_HDR_SIZE + f.val.length + f.pad.length := by
      simp [encode_field, store_le32, FIELD_HDR_SIZE]
      omega
    have hbound : pre.length + FIELD_HDR_SIZE + f.val.length ≤ safe.length := by
      rw [hsafe']
      simp only [List.length_append, hlenf]
      omega
    have := ih (fun g hg => hfs g (List.mem_cons_of_mem _ hg)) (pre ++ encode_field f) safe
      { safep := pre.length + (encode_field f).length
        state := if f.type = 0xff then ParseState.DB else st.state
        hmac := gcry_md_write st.hmac f.val
        printed := st.printed ++
          [{ off := pre.length, table := st.state, len := f.val.length, type := f.type,
             interp := if st.state = ParseState.DB then db_print f.type
                       else hd_print f.type,
             print_read := print_reads mbs safe (pre.length + FIELD_HDR_SIZE) f.val.length
               (if st.state = ParseState.DB then db_print f.type else hd_print f.type) }] }
      k hsafe' (by simp) (by simpa using hfuel)
      (by
        intro l hl
        rcases List.mem_append.mp hl with hl | hl
        · exact hpr l hl
        · rw [List.mem_singleton.mp hl]
          exact hbound)
    obtain ⟨h1, h2, h3, h4, h5, h6⟩ := this
    refine ⟨h1, h2, ?_, h4, ?_, ?_⟩
    · rw [h3, gcry_md_write_write, payloads_cons]
    · rw [h5]
      simp
    · intro hfit hprev
      rw [prints_fit, Bool.and_eq_true] at hfit
      refine h6 hfit.2 ?_
      intro l hl
      rcases List.mem_append.mp hl with hl | hl
      · exact hprev l hl
      · rw [List.mem_singleton.mp hl]
        exact print_reads_fits mbs safe pre (encode fs) f st.state hf hsafe' hfit.1

theorem decode_encode (mbs : List Nat → Nat → Option Nat) (fs : List stored_field)
    (hfs : ∀ f ∈ fs, block_padded f) (hmac : md_hd) :
    (decode mbs hmac (encode fs)).1 = loop_exit.done
      ∧ (decode mbs hmac (encode fs)).2.safep = (encode fs).length
      ∧ (decode mbs hmac (encode fs)).2.hmac = gcry_md_write hmac (payloads fs)
      ∧ (∀ l ∈ (decode mbs hmac (encode fs)).2.printed,
          l.off + FIELD_HDR_SIZE + l.len ≤ (encode fs).length)
      ∧ (decode mbs hmac (encode fs)).2.printed.map (fun l => (l.type, l.len))
          = fs.map (fun f => (f.type, f.val.length))
      ∧ (prints_fit mbs ParseState.HDR fs = true →
          ∀ l ∈ (decode mbs hmac (encode fs)).2.printed,
            ∃ n, l.print_read = some n
              ∧ l.off + FIELD_HDR_SIZE + n ≤ (encode fs).length) := by
  have hlen := encode_length fs hfs
  obtain ⟨h1, h2, h3, h4, h5, h6⟩ := field_loop_encode mbs fs hfs [] (encode fs)
    (decode_init hmac) ((encode fs).length / TWOFISH_SIZE + 1) (by simp) rfl
    (by simp only [TWOFISH_SIZE]; omega) (by simp [decode_init])
  refine ⟨h1, h2, h3, h4, ?_, ?_⟩
  · simpa [decode, decode_init] using h5
  · intro hfit
    exact h6 hfit (by simp [decode_init])

theorem same_fields (fs1 : List stored_field) :
    ∀ fs2 : List stored_field, (∀ f ∈ fs1, block_padded f) → (∀ f ∈ fs2, block_padded f) →
      fs1.map (fun f => (f.type, f.val)) = fs2.map (fun f => (f.type, f.val)) →
      payloads fs1 = payloads fs2 ∧ (encode fs1).length = (encode fs2).length := by
  induction fs1 with
  | nil =>
    intro fs2 _ _ h
    cases fs2 with
    | nil => exact ⟨rfl, rfl⟩
    | cons g gs => simp at h
  | cons f fs ih =>
    intro fs2 h1 h2 h
    cases fs2 with
    | nil => simp at h
    | cons g gs =>
      simp only [List.map_cons, List.cons.injEq, Prod.mk.injEq] at h
      obtain ⟨⟨_, hval⟩, htl⟩ := h
      obtain ⟨hp, hl⟩ := ih gs (fun x hx => h1 x (List.mem_cons_of_mem _ hx))
        (fun x hx => h2 x (List.mem_cons_of_mem _ hx)) htl
      have hf := encode_field_length f (h1 f (List.mem_cons_self _ _))
      have hg := encode_field_length g (h2 g (List.mem_cons_self _ _))
      refine ⟨?_, ?_⟩
      · rw [payloads_cons, payloads_cons, hval, hp]
      · simp only [encode, List.length_append, hf, hg, hval, hl]

/-- C6: two plaintext buffers that hold the same fields (same type and payload, hence
the same length and type bytes) and differ only in the padding after each payload
have the same length, are both decoded to the end, and make the loop feed the
same bytes to the HMAC: the payloads, in file order, of the fields whose length is not
0, with no length or type byte and no padding byte; the digest read from the HMAC
handle after the loop is therefore the same. -/
theorem hmac_input_ignores_padding (mbs : List Nat → Nat → Option Nat) (G : Gcrypt)
    (hmac : md_hd) (fs1 fs2 : List stored_field)
    (h1 : ∀ f ∈ fs1, block_padded f) (h2 : ∀ f ∈ fs2, block_padded f)
    (hsame : fs1.map (fun f => (f.type, f.val)) = fs2.map (fun f => (f.type, f.val))) :
    (encode fs1).length = (encode fs2).length
      ∧ (decode mbs hmac (encode fs1)).1 = loop_exit.done
      ∧ (decode mbs hmac (encode fs2)).1 = loop_exit.done
      ∧ (decode mbs hmac (encode fs1)).2.hmac.buf = hmac.buf ++ payloads fs1
      ∧ (decode mbs hmac (encode fs2)).2.hmac.buf = hmac.buf ++ payloads fs1
      ∧ gcry_md_read G (decode mbs hmac (encode fs1)).2.hmac
          = gcry_md_read G (decode mbs hmac (encode fs2)).2.hmac := by
  obtain ⟨hp, hl⟩ := same_fields fs1 fs2 h1 h2 hsame
  obtain ⟨d1, _, m1, _, _, _⟩ := decode_encode mbs fs1 h1 hmac
  obtain ⟨d2, _, m2, _, _, _⟩ := decode_encode mbs fs2 h2 hmac
  refine ⟨hl, d1, d2, ?_, ?_, ?_⟩
  · rw [m1]; rfl
  · rw [m2, hp]; rfl
  · rw [m1, m2, hp]

theorem hmac_input_ignores_padding_witness :
    (encode (sample_fields 0 9)).length = (encode (sample_fields 1 0)).length
      ∧ (decode toy_mbsrtowcs (gcry_md_new true) (encode (sample_fields 0 9))).1 = loop_exit.done
      ∧ (decode toy_mbsrtowcs (gcry_md_new true) (encode (sample_fields 1 0))).1 = loop_exit.done
      ∧ (decode toy_mbsrtowcs (gcry_md_new true) (encode (sample_fields 0 9))).2.hmac.buf
          = (gcry_md_new true).buf ++ payloads (sample_fields 0 9)
      ∧ (decode toy_mbsrtowcs (gcry_md_new true) (encode (sample_fields 1 0))).2.hmac.buf
          = (gcry_md_new true).buf ++ payloads (sample_fields 0 9)
      ∧ gcry_md_read toy_gcrypt (decode toy_mbsrtowcs (gcry_md_new true) (encode (sample_fields 0 9))).2.hmac
          = gcry_md_read toy_gcrypt
              (decode toy_mbsrtowcs (gcry_md_new true) (encode (sample_fields 1 0))).2.hmac :=
  hmac_input_ignores_padding toy_mbsrtowcs toy_gcrypt (gcry_md_new true) (sample_fields 0 9)
    (sample_fields 1 0) (by decide) (by decide) (by decide)

/-! ## Reads of the decoding loop -/

/-- C10 as stated fails, in three ways.  On a 16-byte buffer whose field announces 12
payload bytes the loop reads the payload at offsets 5 to 16, one byte past the end of
the buffer, for every iteration bound.  On a 32-byte buffer of two block-padded fields
that ends with a UUID field of 3 payload bytes the loop runs to the end, but
`print_uuid` reads the 16 bytes at offsets 21 to 36.  On a 16-byte buffer filled by one
text field whose 11 payload bytes hold six characters, the text conversion in a UTF-8
locale, asked for up to 11 characters, goes on reading at offset 16. -/
theorem decode_overlong_field_faults :
    overlong_buf.length = 16
      ∧ (decode toy_mbsrtowcs (gcry_md_new true) overlong_buf).1 = loop_exit.fault
      ∧ (decode toy_mbsrtowcs (gcry_md_new true) overlong_buf).2.printed
          = [{ off := 0, table := ParseState.HDR, len := 12, type := 1,
               interp := some Interp.uuid, print_read := none }]
      ∧ (∀ fuel : Nat,
          (field_loop toy_mbsrtowcs overlong_buf 16 (fuel + 1)
              (decode_init (gcry_md_new true))).1 = loop_exit.fault)
      ∧ (encode short_uuid_fields).length = 32
      ∧ (∀ f ∈ short_uuid_fields, block_padded f)
      ∧ (decode toy_mbsrtowcs (gcry_md_new true) (encode short_uuid_fields)).1
          = loop_exit.done
      ∧ (decode toy_mbsrtowcs (gcry_md_new true) (encode short_uuid_fields)).2.printed
          = [{ off := 0, table := ParseState.HDR, len := 0, type := 255, interp := none,
               print_read := some 0 },
             { off := 16, table := ParseState.DB, len := 3, type := 1,
               interp := some Interp.uuid, print_read := none }]
      ∧ (encode wide_text_fields).length = 16
      ∧ (∀ f ∈ wide_text_fields, block_padded f)
      ∧ (decode toy_mbsrtowcs (gcry_md_new true) (encode wide_text_fields)).2.printed
          = [{ off := 0, table := ParseState.HDR, len := 11, type := 3,
               interp := some Interp.text, print_read := none }] := by
  refine ⟨by decide, by decide, by decide, ?_, by decide, by decide, by decide, by decide,
    by decide, by decide, by decide⟩
  intro fuel
  rfl

/-- C10 amended: for every plaintext buffer made of stored fields, each with a payload
of at most 2^32 - 21 bytes and padded to the next multiple of 16, in which the 16
bytes after the length and type bytes of every field printed as a UUID and the bytes
the text conversion examines for every field printed as text lie inside the buffer:
the length of the buffer is a multiple of 16; the decoding loop terminates, with every
iteration bound above the number of fields; every byte it reads lies inside the
buffer, namely the five length and type bytes and the payload of every field (the
bytes passed to the HMAC) and the bytes read by the print function of every field; the
fields it decodes are the stored ones; and the cursor finishes exactly at the end of
the buffer. -/
theorem decode_stored_fields_in_bounds (mbs : List Nat → Nat → Option Nat) (hmac : md_hd)
    (fs : List stored_field) (hfs : ∀ f ∈ fs, block_padded f)
    (hprint : prints_fit mbs ParseState.HDR fs = true) :
    (encode fs).length % TWOFISH_SIZE = 0
      ∧ (∀ fuel : Nat, fs.length < fuel →
          (field_loop mbs (encode fs) (encode fs).length fuel (decode_init hmac)).1
            = loop_exit.done)
      ∧ (decode mbs hmac (encode fs)).1 = loop_exit.done
      ∧ (decode mbs hmac (encode fs)).2.safep = (encode fs).length
      ∧ (∀ l ∈ (decode mbs hmac (encode fs)).2.printed,
          l.off + FIELD_HDR_SIZE + l.len ≤ (encode fs).length)
      ∧ (∀ l ∈ (decode mbs hmac (encode fs)).2.printed,
          ∃ n, l.print_read = some n ∧ l.off + FIELD_HDR_SIZE + n ≤ (encode fs).length)
      ∧ (decode mbs hmac (encode fs)).2.printed.map (fun l => (l.type, l.len))
          = fs.map (fun f => (f.type, f.val.length)) := by
  obtain ⟨d1, d2, _, d4, d5, d6⟩ := decode_encode mbs fs hfs hmac
  refine ⟨(encode_length fs hfs).2, ?_, d1, d2, d4, d6 hprint, d5⟩
  intro fuel hfuel
  exact (field_loop_encode mbs fs hfs [] (encode fs) (decode_init hmac) fuel (by simp) rfl
    hfuel (by simp [decode_init])).1

theorem decode_stored_fields_in_bounds_witness :
    (encode mixed_fields).length % TWOFISH_SIZE = 0
      ∧ (∀ fuel : Nat, mixed_fields.length < fuel →
          (field_loop toy_mbsrtowcs (encode mixed_fields) (encode mixed_fields).length fuel
            (decode_init (gcry_md_new true))).1 = loop_exit.done)
      ∧ (decode toy_mbsrtowcs (gcry_md_new true) (encode mixed_fields)).1 = loop_exit.done
      ∧ (decode toy_mbsrtowcs (gcry_md_new true) (encode mixed_fields)).2.safep
          = (encode mixed_fields).length
      ∧ (∀ l ∈ (decode toy_mbsrtowcs (gcry_md_new true) (encode mixed_fields)).2.printed,
          l.off + FIELD_HDR_SIZE + l.len ≤ (encode mixed_fields).length)
      ∧ (∀ l ∈ (decode toy_mbsrtowcs (gcry_md_new true) (encode mixed_fields)).2.printed,
          ∃ n, l.print_read = some n
            ∧ l.off + FIELD_HDR_SIZE + n ≤ (encode mixed_fields).length)
      ∧ (decode toy_mbsrtowcs (gcry_md_new true) (encode mixed_fields)).2.printed.map
            (fun l => (l.type, l.len))
          = mixed_fields.map (fun f => (f.type, f.val.length)) :=
  decode_stored_fields_in_bounds toy_mbsrtowcs (gcry_md_new true) mixed_fields
    (by decide) (by decide)

/-! ## The stored authentication tag -/

theorem retag_length (file tag : List Nat) (hn : 32 ≤ file.length) (ht : tag.length = 32) :
    (retag file tag).length = file.length := by
  simp only [retag, List.length_append, List.length_take, ht]
  omega

theorem slice_append (a x y : List Nat) (off n : Nat) (h : off + n ≤ a.length) :
    ((a ++ x).drop off).take n = ((a ++ y).drop off).take n := by
  rw [List.drop_append_of_le_length (by omega), List.drop_append_of_le_length (by omega),
    List.take_append_of_le_length (by simp; omega),
    List.take_append_of_le_length (by simp; omega)]

theorem peek_retag (file tag : List Nat) (off n : Nat) (hn : 32 ≤ file.length)
    (ht : tag.length = 32) (h : off + n ≤ file.length - 32) :
    peek (retag file tag) off n = peek file off n := by
  have hl := retag_length file tag hn ht
  have hsplit : file = file.take (file.length - 32) ++ file.drop (file.length - 32) :=
    (List.take_append_drop _ _).symm
  have hslice : ((retag file tag).drop off).take n = (file.drop off).take n := by
    conv_rhs => rw [hsplit]
    exact slice_append _ _ _ off n (by simp; omega)
  simp only [peek, hl, hslice]

theorem pws3_read_header_retag (E : Env) (file tag : List Nat) (ht : tag.length = 32)
    (hsz : 4 + E.sizeof_hdr + 48 ≤ file.length) :
    pws3_read_header E (retag file tag) = pws3_read_header E file := by
  have hl := retag_length file tag (by omega) ht
  have hsplit : file = file.take (file.length - 32) ++ file.drop (file.length - 32) :=
    (List.take_append_drop _ _).symm
  have htake : (retag file tag).take (4 + E.sizeof_hdr) = file.take (4 + E.sizeof_hdr) := by
    conv_rhs => rw [hsplit]
    rw [retag, List.take_append_of_le_length (by simp; omega),
      List.take_append_of_le_length (by simp; omega)]
  simp only [pws3_read_header, hl, htake]

theorem decrypt_loop_retag (G : Gcrypt) (drained : Nat → Bool) (file tag : List Nat)
    (hn : 32 ≤ file.length) (ht : tag.length = 32) (bcnt : Nat) :
    ∀ (k : Nat) (cipher : cipher_hd) (encp safep : Nat) (safe : List Nat),
      encp + TWOFISH_SIZE * bcnt ≤ file.length - 32 →
      decrypt_loop G drained (retag file tag) bcnt k cipher encp safep safe
        = decrypt_loop G drained file bcnt k cipher encp safep safe := by
  induction bcnt with
  | zero => intro k cipher encp safep safe _; rfl
  | succ bcnt ih =>
    intro k cipher encp safep safe h
    have hpk : peek (retag file tag) encp TWOFISH_SIZE = peek file encp TWOFISH_SIZE :=
      peek_retag file tag encp TWOFISH_SIZE hn ht (by simp only [TWOFISH_SIZE] at *; omega)
    simp only [decrypt_loop, hpk]
    split
    · rfl
    · split
      · split
        · rfl
        · exact ih _ _ _ _ _ (by simp only [TWOFISH_SIZE] at *; omega)
      · rfl

theorem main_report_retag (G : Gcrypt) (file tag : List Nat) (hdr : psafe3_header)
    (sec : safe_sec) (st : decode_st) (hn : 48 ≤ file.length) (hmax : file.length < SIZE_MOD)
    (ht : tag.length = 32) :
    main_report G (retag file tag) hdr sec st
      = (main_report G file hdr sec st).with_stored tag := by
  have hl := retag_length file tag (by omega) ht
  have hmod : file.length % SIZE_MOD = file.length := Nat.mod_eq_of_lt hmax
  have h48 : (file.length + SIZE_MOD - 48) % SIZE_MOD = file.length - 48 := by
    have : file.length + SIZE_MOD - 48 = (file.length - 48) + SIZE_MOD := by omega
    rw [this, Nat.add_mod_right, Nat.mod_eq_of_lt (by omega)]
  have h32 : (file.length + SIZE_MOD - 32) % SIZE_MOD = file.length - 32 := by
    have : file.length + SIZE_MOD - 32 = (file.length - 32) + SIZE_MOD := by omega
    rw [this, Nat.add_mod_right, Nat.mod_eq_of_lt (by omega)]
  have hmark : peek (retag file tag) (file.length - 48) TWOFISH_SIZE
      = peek file (file.length - 48) TWOFISH_SIZE :=
    peek_retag file tag _ _ (by omega) ht (by simp only [TWOFISH_SIZE]; omega)
  have hnew : peek (retag file tag) (file.length - 32) 32 = some tag := by
    have hk : (file.take (file.length - 32)).length = file.length - 32 := by simp
    have := peek_mid (file.take (file.length - 32)) tag []
    rw [List.append_nil, hk, ht] at this
    exact this
  have hold : peek file (file.length - 32) 32 = some (file.drop (file.length - 32)) := by
    simp only [peek]
    rw [if_pos (by omega), List.take_of_length_le (by simp; omega)]
  simp only [main_report, hl, hmod, h48, h32, hmark, hnew, hold]
  split
  · rfl
  · split <;> rfl

theorem with_stored_of_status_none (tag : List Nat) (o : Outcome) (h : o.status = none) :
    o.with_stored tag = o := by
  cases o with
  | exit s r => simp [Outcome.status] at h
  | abort l => rfl
  | fatal e => rfl
  | fault l => rfl
  | hang => rfl

theorem decrypt_loop_error_status (G : Gcrypt) (drained : Nat → Bool) (mem : List Nat)
    (bcnt : Nat) :
    ∀ (k : Nat) (cipher : cipher_hd) (encp safep : Nat) (safe : List Nat) (o : Outcome),
      decrypt_loop G drained mem bcnt k cipher encp safep safe = .error o → o.status = none := by
  induction bcnt with
  | zero => intro k cipher encp safep safe o h; simp [decrypt_loop] at h
  | succ bcnt ih =>
    intro k cipher encp safep safe o h
    simp only [decrypt_loop] at h
    split at h
    · simp at h
    · split at h
      · split at h
        · injection h with h
          rw [← h]
          rfl
        · exact ih _ _ _ _ _ o h
      · injection h with h
        rw [← h]
        rfl

theorem main_body_retag (E : Env) (file tag : List Nat) (hdr : psafe3_header) (sec : safe_sec)
    (safe : List Nat) (ctx : crypto_ctx)
    (hsz : 4 + E.sizeof_hdr + 48 ≤ file.length) (hmax : file.length < SIZE_MOD)
    (ht : tag.length = 32) :
    main_body E (retag file tag) hdr sec (body_size file.length E.sizeof_hdr) safe ctx
      = (main_body E file hdr sec (body_size file.length E.sizeof_hdr) safe ctx).with_stored
          tag := by
  have hbs : body_size file.length E.sizeof_hdr = file.length - (4 + E.sizeof_hdr + 48) := by
    have h1 : file.length % SIZE_MOD = file.length := Nat.mod_eq_of_lt hmax
    have h2 : (4 + E.sizeof_hdr + 48) % SIZE_MOD = 4 + E.sizeof_hdr + 48 :=
      Nat.mod_eq_of_lt (by omega)
    have h3 : file.length + SIZE_MOD - (4 + E.sizeof_hdr + 48)
        = (file.length - (4 + E.sizeof_hdr + 48)) + SIZE_MOD := by omega
    rw [body_size, h1, h2, h3, Nat.add_mod_right, Nat.mod_eq_of_lt (by omega)]
  have hdec : ∀ cipher : cipher_hd,
      decrypt_loop E.gcrypt E.drained (retag file tag)
          (body_size file.length E.sizeof_hdr / TWOFISH_SIZE) 0 cipher (4 + E.sizeof_hdr) 0 safe
        = decrypt_loop E.gcrypt E.drained file
          (body_size file.length E.sizeof_hdr / TWOFISH_SIZE) 0 cipher (4 + E.sizeof_hdr) 0
          safe := by
    intro cipher
    apply decrypt_loop_retag E.gcrypt E.drained file tag (by omega) ht
    rw [hbs]
    simp only [TWOFISH_SIZE]
    omega
  simp only [main_body]
  split
  · rfl
  · split
    · rw [hdec]
      split
      · rename_i o ho
        exact (with_stored_of_status_none tag o (decrypt_loop_error_status _ _ _ _ _ _ _ _ _ o ho)).symm
      · split
        · exact main_report_retag E.gcrypt file tag hdr sec _ (by omega) hmax ht
        · rfl
        · rfl
        · rfl
    · rfl

theorem stretch_key_error_status (G : Gcrypt) (pass : List Nat) (passlen : Nat)
    (pro : psafe3_header) (o : Outcome) (h : stretch_key G pass passlen pro = .error o) :
    o.status = none := by
  simp only [stretch_key] at h
  split at h
  · injection h with h
    rw [← h]
    rfl
  · simp at h

theorem sha256_block32_error_status (G : Gcrypt) (inp : List Nat) (o : Outcome)
    (h : sha256_block32 G inp = .error o) : o.status = none := by
  simp only [sha256_block32] at h
  split at h
  · injection h with h
    rw [← h]
    rfl
  · simp at h

theorem extract_random_key_error_status (G : Gcrypt) (stretchkey fst snd randkey : List Nat)
    (o : Outcome) (h : extract_random_key G stretchkey fst snd randkey = .error o) :
    o.status = none := by
  simp only [extract_random_key] at h
  split at h
  · injection h with h
    rw [← h]
    rfl
  · split at h
    · injection h with h
      rw [← h]
      rfl
    · simp at h

theorem stretch_and_check_pass_error_status (G : Gcrypt) (pass : List Nat) (passlen : Nat)
    (pro : psafe3_header) (sec : safe_sec) (o : Outcome)
    (h : stretch_and_check_pass G pass passlen pro sec = .error o) : o.status = none := by
  simp only [stretch_and_check_pass] at h
  split at h
  · rename_i o' ho
    injection h with h
    exact h ▸ stretch_key_error_status G pass passlen pro o' ho
  · split at h
    · rename_i o' ho
      injection h with h
      exact h ▸ sha256_block32_error_status G _ o' ho
    · split at h
      · simp at h
      · split at h
        · rename_i o' ho
          injection h with h
          exact h ▸ extract_random_key_error_status G _ _ _ _ o' ho
        · split at h
          · rename_i o' ho
            injection h with h
            exact h ▸ extract_random_key_error_status G _ _ _ _ o' ho
          · simp at h

theorem main_retag (E : Env) (argv : List (List Nat)) (file tag : List Nat)
    (hsz : 4 + E.sizeof_hdr + 48 ≤ file.length) (hmax : file.length < SIZE_MOD)
    (ht : tag.length = 32) :
    main E argv (some (retag file tag)) = (main E argv (some file)).with_stored tag := by
  have hl := retag_length file tag (by omega) ht
  simp only [main, hl, pws3_read_header_retag E file tag ht hsz]
  split
  · rfl
  · split
    · rfl
    · split
      · rfl
      · split
        · rename_i o ho
          exact (with_stored_of_status_none tag o
            (stretch_and_check_pass_error_status _ _ _ _ _ o ho)).symm
        · split
          · rfl
          · split
            · rfl
            · split
              · rfl
              · split
                · rfl
                · split
                  · rfl
                  · exact main_body_retag E file tag _ _ _ _ hsz hmax ht

/-- C1 as stated fails: the toy container opened with its passphrase, whose stored tag
is 32 zero bytes while the HMAC computed over its field payloads is 32 bytes of value
114, makes `main` print both and end with exit status 0. -/
theorem main_succeeds_on_wrong_tag :
    main toy_env toy_argv (some (toy_file (List.replicate 32 0)))
        = Outcome.exit 0 (some
            { fields :=
                [{ off := 0, table := ParseState.HDR, len := 0, type := 255, interp := none,
                   print_read := some 0 },
                 { off := 16, table := ParseState.DB, len := 5, type := 3,
                   interp := some Interp.text, print_read := some 5 }],
              key := List.replicate 32 129, h_key := List.replicate 32 102,
              hmac_computed := List.replicate 32 114, hmac_stored := List.replicate 32 0 })
      ∧ List.replicate 32 114 ≠ List.replicate 32 0 := by
  constructor
  · set_option maxRecDepth 100000 in decide
  · decide

/-- C1 amended: for every container at least as long as tag, header and trailer,
replacing the 32 stored tag bytes by any other 32 bytes changes nothing in the run of
`main` but the stored tag it prints; the exit status is the same, and a run that ends
with exit status 0 still ends with exit status 0, printing the same computed HMAC
next to the replaced tag, whether or not the two are equal. -/
theorem main_exit_status_ignores_stored_tag (E : Env) (argv : List (List Nat))
    (file tag : List Nat) (hsz : 4 + E.sizeof_hdr + 48 ≤ file.length)
    (hmax : file.length < SIZE_MOD) (ht : tag.length = 32) :
    main E argv (some (retag file tag)) = (main E argv (some file)).with_stored tag
      ∧ (main E argv (some (retag file tag))).status = (main E argv (some file)).status
      ∧ (∀ r : Report, main E argv (some file) = Outcome.exit 0 (some r) →
          main E argv (some (retag file tag))
            = Outcome.exit 0 (some { r with hmac_stored := tag })) := by
  have h := main_retag E argv file tag hsz hmax ht
  refine ⟨h, ?_, ?_⟩
  · rw [h]
    cases main E argv (some file) with
    | exit s r => cases r <;> rfl
    | abort l => rfl
    | fatal e => rfl
    | fault l => rfl
    | hang => rfl
  · intro r hr
    rw [h, hr]
    rfl

theorem main_exit_status_ignores_stored_tag_witness :
    main toy_env toy_argv (some (retag (toy_file (List.replicate 32 114)) (List.replicate 32 0)))
        = (main toy_env toy_argv (some (toy_file (List.replicate 32 114)))).with_stored
            (List.replicate 32 0)
      ∧ (main toy_env toy_argv
            (some (retag (toy_file (List.replicate 32 114)) (List.replicate 32 0)))).status
          = (main toy_env toy_argv (some (toy_file (List.replicate 32 114)))).status
      ∧ (∀ r : Report,
          main toy_env toy_argv (some (toy_file (List.replicate 32 114)))
            = Outcome.exit 0 (some r) →
          main toy_env toy_argv
              (some (retag (toy_file (List.replicate 32 114)) (List.replicate 32 0)))
            = Outcome.exit 0 (some { r with hmac_stored := List.replicate 32 0 })) :=
  main_exit_status_ignores_stored_tag toy_env toy_argv (toy_file (List.replicate 32 114))
    (List.replicate 32 0) (by simp [toy_file, toy_head, toy_body, PWS3_EOF, toy_env])
    (by simp [toy_file, toy_head, toy_body, PWS3_EOF, SIZE_MOD]) (by simp)

/-! ## The iteration bound of the decoding loop -/

theorem field_advance_pos (len : Nat) (h : field_advance len ≠ 0) : 16 ≤ field_advance len := by
  unfold field_advance TWOFISH_SIZE at *
  omega

theorem field_loop_fuel_suffices (mbs : List Nat → Nat → Option Nat) (safe : List Nat)
    (safe_size fuel : Nat) (st : decode_st) (h : (safe_size - st.safep + 15) / 16 < fuel) :
    (field_loop mbs safe safe_size fuel st).1 ≠ loop_exit.out_of_fuel := by
  induction fuel generalizing st with
  | zero => omega
  | succ fuel ih =>
    unfold field_loop
    split
    · rename_i hlt
      split
      · simp
      · dsimp only
        split
        · split
          · simp
          · split
            · simp
            · rename_i hadv
              have := field_advance_pos _ hadv
              exact ih _ (by dsimp only; omega)
        · split
          · simp
          · rename_i hadv
            have := field_advance_pos _ hadv
            exact ih _ (by dsimp only; omega)
    · simp

theorem main_loop_bound_suffices (mbs : List Nat → Nat → Option Nat) (safe : List Nat)
    (safe_size : Nat) (hmac : md_hd) (h : safe_size % TWOFISH_SIZE = 0) :
    (field_loop mbs safe safe_size (safe_size / TWOFISH_SIZE + 1) (decode_init hmac)).1
      ≠ loop_exit.out_of_fuel := by
  apply field_loop_fuel_suffices
  simp only [decode_init, TWOFISH_SIZE] at *
  omega

end Psafe
